import Mathlib

set_option maxRecDepth 8192

namespace FlashRing

/-- Flash page size in bytes (FlashRing.h, constant PAGE_SIZE). -/
def PAGE_SIZE : Nat := 4096

/-- Number of cache slots for pre-erased pages (FlashRing.h, constant PRE_ERASE_PAGES). -/
def PRE_ERASE_PAGES : Nat := 2

/-- Modulus of a 32-bit unsigned counter (the type of the totalWritten field). -/
def UINT32_MOD : Nat := 4294967296

/-- Error code ESP_OK. -/
def espOk : Nat := 0

/-- Error code ESP_ERR_INVALID_STATE (0x103). -/
def espErrInvalidState : Nat := 259

/-- Error code ESP_ERR_INVALID_SIZE (0x104). -/
def espErrInvalidSize : Nat := 260

/-- Persistent metadata of the ring (struct Metadata in FlashRing.h, without the magic
field, which is constant once initialized).  The erasedPages array is modelled with
Option Nat, where none stands for the SIZE_MAX sentinel (empty slot).  In the source
the RAM cache s_erasedPages and the persisted s_meta.erasedPages are updated together
at the same index by every mutation, hence always equal; a single list models both. -/
structure Meta where
  head : Nat
  tail : Nat
  totalWritten : Nat
  wrapCount : Nat
  erasedPages : List (Option Nat)
deriving Repr, DecidableEq

/-- Whole module state: partition geometry, metadata, plus instrumentation used to
state the claims: a shadow erased bit per page (set by every physical erase of the
page, cleared by every physical write touching it), a flag ebwOk accumulating the
erase-before-write check at each physical write, the log of physical data writes
issued to the partition (offset and length), a counter of synchronous-erase
fallbacks taken inside ensurePageErased, and the last metadata blob saved to NVS. -/
structure RingState where
  size : Nat
  inited : Bool
  meta : Meta
  shadow : List Bool
  ebwOk : Bool
  physLog : List (Nat × Nat)
  syncEraseCount : Nat
  persisted : Option Meta
deriving Repr, DecidableEq

/-- Used bytes between tail and head (FlashRing.cpp, getUsedBytes). -/
def getUsedBytes (m : Meta) (size : Nat) : Nat :=
  if m.head ≥ m.tail then m.head - m.tail else size - m.tail + m.head

/-- Free bytes (FlashRing.cpp, getFreeBytes). -/
def getFreeBytes (m : Meta) (size : Nat) : Nat :=
  size - getUsedBytes m size - 1

/-- Bytes from head to the end of the current page (FlashRing.cpp, getBytesToPageEnd). -/
def getBytesToPageEnd (s : RingState) : Nat :=
  PAGE_SIZE - s.meta.head % PAGE_SIZE

/-- Linear scan of the erased-pages cache (FlashRing.cpp, isPageErased). -/
def isPageErased (cache : List (Option Nat)) (p : Nat) : Bool :=
  cache.contains (some p)

/-- One pass of the markPageErased loop: update the first slot that is empty or
already holds the page; none if no slot matched. -/
def insertSlot : List (Option Nat) → Nat → Option (List (Option Nat))
  | [], _ => none
  | e :: rest, p =>
      if e = none ∨ e = some p then some (some p :: rest)
      else (insertSlot rest p).map (fun r => e :: r)

/-- Insert a page into the erased-pages cache (FlashRing.cpp, markPageErased): first
empty or matching slot wins, otherwise slot 0 is overwritten. -/
def markPageErased (cache : List (Option Nat)) (p : Nat) : List (Option Nat) :=
  match insertSlot cache p with
  | some c => c
  | none =>
      match cache with
      | [] => []
      | _ :: rest => some p :: rest

/-- Physically erase one page: set its shadow erased bit. -/
def erasePageShadow (sh : List Bool) (p : Nat) : List Bool :=
  sh.set p true

/-- A physical data write of len bytes at the given offset (esp_partition_write).
The chunking in write guarantees a chunk never crosses a page boundary, so the
touched page is offset / PAGE_SIZE.  The erase-before-write check of the claims is
accumulated into ebwOk, the shadow bit is cleared, and the write is logged. -/
def physWrite (s : RingState) (offset len : Nat) : RingState :=
  let p := offset / PAGE_SIZE
  { s with ebwOk := s.ebwOk && s.shadow.getD p false,
           shadow := s.shadow.set p false,
           physLog := s.physLog ++ [(offset, len)] }

/-- Guarantee the page is erased before writing (FlashRing.cpp, ensurePageErased):
a cache hit is trusted without touching the flash, otherwise the page is erased
synchronously (counted as a fallback) and inserted into the cache. -/
def ensurePageErased (s : RingState) (p : Nat) : RingState :=
  if isPageErased s.meta.erasedPages p then s
  else
    { s with shadow := erasePageShadow s.shadow p,
             syncEraseCount := s.syncEraseCount + 1,
             meta := { s.meta with erasedPages := markPageErased s.meta.erasedPages p } }

/-- Size of the next write sub-chunk (FlashRing.cpp, write loop): bounded by the
remaining request, the bytes to the end of the current page, and the bytes to the
physical end of the partition. -/
def chunkSize (size head rem : Nat) : Nat :=
  min rem (min (PAGE_SIZE - head % PAGE_SIZE) (size - head))

/-- Tail-advance and wrap-count update performed before a chunk when the buffer
would become over-full (FlashRing.cpp, write, lines 156-162). -/
def trigUpdate (s : RingState) (c : Nat) : RingState :=
  if getUsedBytes s.meta s.size + c ≥ s.size then
    { s with meta := { s.meta with
        tail := (s.meta.tail + c) % s.size,
        wrapCount :=
          if s.meta.wrapCount = 0 ∨ (s.meta.head + c) % s.size < s.meta.head then
            s.meta.wrapCount + 1
          else s.meta.wrapCount } }
  else s

/-- State just before the physical write of a chunk: tail/wrap update, then
ensurePageErased on the page containing head. -/
def preWrite (s : RingState) (c : Nat) : RingState :=
  ensurePageErased (trigUpdate s c) (s.meta.head / PAGE_SIZE)

/-- Full effect of one successful chunk: tail/wrap update, ensure the page erased,
physical write at head, then advance head and the 32-bit totalWritten counter. -/
def doChunk (s : RingState) (c : Nat) : RingState :=
  let s3 := physWrite (preWrite s c) s.meta.head c
  { s3 with meta := { s3.meta with
      head := (s.meta.head + c) % s3.size,
      totalWritten := (s3.meta.totalWritten + c) % UINT32_MOD } }

/-- The while loop of FlashRing::write, by structural recursion on a fuel argument
(every chunk is at least one byte whenever head < size, so fuel = len suffices; the
chunk-zero guard corresponds to a state the loop can never reach from a well-formed
cursor).  errs gives the result of the k-th esp_partition_write of this call; a
missing entry means ESP_OK.  On a device error the error is returned as is and the
remaining bytes are not written. -/
def writeChunks (errs : List Nat) : Nat → Nat → RingState → Nat → Nat × RingState
  | 0, _, s, _ => (espOk, s)
  | fuel + 1, k, s, rem =>
    if rem = 0 then (espOk, s)
    else if chunkSize s.size s.meta.head rem = 0 then (espOk, s)
    else if errs.getD k espOk ≠ espOk then
      (errs.getD k espOk, preWrite s (chunkSize s.size s.meta.head rem))
    else
      writeChunks errs fuel (k + 1) (doChunk s (chunkSize s.size s.meta.head rem))
        (rem - chunkSize s.size s.meta.head rem)

/-- FlashRing::write with an error schedule for the underlying block device
(FlashRing.cpp, lines 127-188). -/
def writeDev (errs : List Nat) (s : RingState) (len : Nat) : Nat × RingState :=
  if s.inited = false then (espErrInvalidState, s)
  else if len = 0 then (espOk, s)
  else if len > s.size then (espErrInvalidSize, s)
  else writeChunks errs len 0 s len

/-- FlashRing::write with a block device that never fails. -/
def write (s : RingState) (len : Nat) : Nat × RingState :=
  writeDev [] s len

/-- FlashRing::consume: advance tail by at most the available bytes. -/
def consume (s : RingState) (len : Nat) : Nat × RingState :=
  if s.inited = false then (espErrInvalidState, s)
  else
    let toConsume := min len (getUsedBytes s.meta s.size)
    (espOk, { s with meta := { s.meta with tail := (s.meta.tail + toConsume) % s.size } })

/-- FlashRing::readAt: non-destructive; returns the error code and bytesRead.
Reading never mutates the cursor, and the read loop only issues device reads. -/
def readAt (s : RingState) (offset len : Nat) : Nat × Nat × RingState :=
  if s.inited = false then (espErrInvalidState, 0, s)
  else if offset ≥ getUsedBytes s.meta s.size then (espOk, 0, s)
  else (espOk, min len (getUsedBytes s.meta s.size - offset), s)

/-- Statistics snapshot (struct Stats in FlashRing.h). -/
structure Stats where
  partitionSize : Nat
  usedBytes : Nat
  freeBytes : Nat
  wrapCount : Nat
  totalWritten : Nat
deriving Repr, DecidableEq

/-- FlashRing::getStats: read-only snapshot. -/
def getStats (s : RingState) : Option Stats :=
  if s.inited = false then none
  else some { partitionSize := s.size
            , usedBytes := getUsedBytes s.meta s.size
            , freeBytes := getFreeBytes s.meta s.size
            , wrapCount := s.meta.wrapCount
            , totalWritten := s.meta.totalWritten }

/-- FlashRing::flushMetadata: persist the metadata blob. -/
def flushMetadata (s : RingState) : Nat × RingState :=
  if s.inited = false then (espErrInvalidState, s)
  else (espOk, { s with persisted := some s.meta })

/-- FlashRing::erase: erase the entire region, reset the cursor, seed the cache
with pages 0 and 1 (the loop writes slot i := i for i < PRE_ERASE_PAGES), persist. -/
def erase (s : RingState) : Nat × RingState :=
  if s.inited = false then (espErrInvalidState, s)
  else
    let m : Meta := { head := 0, tail := 0, totalWritten := 0, wrapCount := 0,
                      erasedPages := (List.range PRE_ERASE_PAGES).map some }
    let s' : RingState :=
      { s with shadow := s.shadow.map (fun _ => true), meta := m, persisted := some m }
    (espOk, s')

/-- The fresh-metadata branch of FlashRing::init: zero cursor, empty cache, then
physically erase pages 0 .. PRE_ERASE_PAGES (inclusive) marking each in the cache,
and save the metadata.  The shadow starts all false: a page is not assumed erased
until the module erases it. -/
def initFresh (size : Nat) : RingState :=
  let s0 : RingState :=
    { size := size
    , inited := true
    , meta := { head := 0, tail := 0, totalWritten := 0, wrapCount := 0,
                erasedPages := List.replicate PRE_ERASE_PAGES none }
    , shadow := List.replicate (size / PAGE_SIZE) false
    , ebwOk := true
    , physLog := []
    , syncEraseCount := 0
    , persisted := none }
  let s1 := (List.range (PRE_ERASE_PAGES + 1)).foldl
    (fun s i =>
      { s with shadow := erasePageShadow s.shadow i,
               meta := { s.meta with erasedPages := markPageErased s.meta.erasedPages i } })
    s0
  { s1 with persisted := some s1.meta }

/-- Page examined by the pre-erase task i steps ahead of the write cursor
(modulo the total page count). -/
def preEraseTarget (s : RingState) (i : Nat) : Nat :=
  (s.meta.head / PAGE_SIZE + i) % (s.size / PAGE_SIZE)

/-- Erase one page in the background and record it in the cache (the body of the
eraseTask loop for its chosen target page). -/
def backgroundErase (s : RingState) (p : Nat) : RingState :=
  { s with shadow := erasePageShadow s.shadow p,
           meta := { s.meta with erasedPages := markPageErased s.meta.erasedPages p } }

/-- One iteration of the background pre-erase task (FlashRing.cpp, eraseTask):
scan the PRE_ERASE_PAGES = 2 pages ahead of the write cursor, erase the first one
not present in the cache and insert it, then stop for this tick. -/
def preEraseStep (s : RingState) : RingState :=
  if s.inited = false then s
  else if isPageErased s.meta.erasedPages (preEraseTarget s 1) = false then
    backgroundErase s (preEraseTarget s 1)
  else if isPageErased s.meta.erasedPages (preEraseTarget s 2) = false then
    backgroundErase s (preEraseTarget s 2)
  else s

/-- Operations of the store, for stating invariants over call sequences. -/
inductive Op where
  | doWrite (len : Nat)
  | doConsume (len : Nat)
  | doReadAt (offset len : Nat)
  | doErase
  | doFlushMeta
  | doStats
  | doPreErase
deriving Repr, DecidableEq

/-- Effect of one operation on the state (return values discarded). -/
def step (s : RingState) : Op → RingState
  | .doWrite l => (write s l).2
  | .doConsume l => (consume s l).2
  | .doReadAt o l => (readAt s o l).2.2
  | .doErase => (erase s).2
  | .doFlushMeta => (flushMetadata s).2
  | .doStats => s
  | .doPreErase => preEraseStep s

/-- Run a sequence of operations. -/
def run (s : RingState) (ops : List Op) : RingState :=
  ops.foldl step s

/-- Well-formed cursor: both offsets inside the region and the 32-bit counter in
range.  Holds for every reachable state. -/
def wf (s : RingState) : Prop :=
  s.meta.head < s.size ∧ s.meta.tail < s.size ∧ s.meta.totalWritten < UINT32_MOD

instance (s : RingState) : Decidable (wf s) := by
  unfold wf; infer_instance

/-- Total number of data bytes physically written to the partition, from the log. -/
def physBytes (s : RingState) : Nat :=
  (s.physLog.map (fun pr => pr.2)).sum

end FlashRing

namespace DataPipeline

open FlashRing

/-- Pipeline configuration (DataPipeline.h, struct Config): staging-buffer capacity
and idle-flush timeout.  Time is modelled in the same unit as the timeout. -/
structure Config where
  writeChunkSize : Nat
  flushTimeoutMs : Nat
deriving Repr, DecidableEq

/-- State of the writer task (DataPipeline.cpp, writerTask) together with its
collaborators: the FlashRing state, the bytes still queued in the source ring
buffer (stream), the staging buffer contents (pending, whose length is the local
pendingBytes), the log of byte blocks passed to FlashRing::write, the tick of the
last received data, a count of FlashRing::flushMetadata calls made by the task,
and the statistics counters of the module. -/
structure PipeState where
  ring : RingState
  stream : List Nat
  pending : List Nat
  writesLog : List (List Nat)
  lastData : Nat
  flushMetaCalls : Nat
  bytesWrittenToFlash : Nat
  bytesDropped : Nat
  writeOperations : Nat
deriving Repr, DecidableEq

/-- Issue one FlashRing::write of the given bytes and update the statistics
(DataPipeline.cpp, the three write sites of writerTask share this shape). -/
def issueWrite (ps : PipeState) (buf : List Nat) : PipeState :=
  if (FlashRing.write ps.ring buf.length).1 = espOk then
    { ps with ring := (FlashRing.write ps.ring buf.length).2,
              writesLog := ps.writesLog ++ [buf],
              bytesWrittenToFlash := ps.bytesWrittenToFlash + buf.length,
              writeOperations := ps.writeOperations + 1 }
  else
    { ps with ring := (FlashRing.write ps.ring buf.length).2,
              writesLog := ps.writesLog ++ [buf],
              bytesDropped := ps.bytesDropped + buf.length }

/-- The full-page while loop of writerTask (DataPipeline.cpp, lines 217-234), by
structural recursion on a fuel argument; fuel = pending length always suffices
since each iteration removes PAGE_SIZE bytes from the staging buffer. -/
def fullPages : Nat → PipeState → PipeState
  | 0, ps => ps
  | fuel + 1, ps =>
    if PAGE_SIZE ≤ ps.pending.length then
      fullPages fuel
        { issueWrite ps (ps.pending.take PAGE_SIZE) with
          pending := ps.pending.drop PAGE_SIZE }
    else ps

/-- Number of bytes the drain phase actually receives this iteration: bounded by
what the source hands over (recvReq), the staging-buffer room, and the bytes
queued (xRingbufferReceiveUpTo with maxSize = writeChunkSize - pendingBytes). -/
def recvCount (cfg : Config) (ps : PipeState) (recvReq : Nat) : Nat :=
  min (min recvReq (cfg.writeChunkSize - ps.pending.length)) ps.stream.length

/-- The drain phase of one writerTask iteration: append the received bytes to the
staging buffer and reset the last-data timestamp. -/
def drainStep (cfg : Config) (ps : PipeState) (now recvReq : Nat) : PipeState :=
  if 0 < recvCount cfg ps recvReq then
    { ps with stream := ps.stream.drop (recvCount cfg ps recvReq),
              pending := ps.pending ++ ps.stream.take (recvCount cfg ps recvReq),
              lastData := now }
  else ps

/-- The page-completion write of writerTask (DataPipeline.cpp, lines 192-214):
if the staged bytes can complete the flash page containing head, write exactly
bytesToPageEnd bytes and shift the buffer. -/
def pageCompleteStep (ps : PipeState) : PipeState :=
  if getBytesToPageEnd ps.ring ≤ ps.pending.length ∧ 0 < getBytesToPageEnd ps.ring then
    { issueWrite ps (ps.pending.take (getBytesToPageEnd ps.ring)) with
      pending := ps.pending.drop (getBytesToPageEnd ps.ring) }
  else ps

/-- The flush phase of one writerTask iteration (DataPipeline.cpp, lines 237-271):
on the one-shot signal, or when data is pending and the idle time exceeds the
configured timeout, write all pending bytes and flush the metadata. -/
def flushStep (cfg : Config) (ps : PipeState) (now : Nat) (flushSig : Bool) : PipeState :=
  if (flushSig || (decide (0 < ps.pending.length) &&
        decide (cfg.flushTimeoutMs < now - ps.lastData))) = true ∧ 0 < ps.pending.length then
    { issueWrite ps ps.pending with
      pending := [],
      ring := (flushMetadata (issueWrite ps ps.pending).ring).2,
      flushMetaCalls := (issueWrite ps ps.pending).flushMetaCalls + 1 }
  else ps

/-- One iteration of the writerTask loop (DataPipeline.cpp, lines 169-272) in the
running state: receive up to writeChunkSize - pendingBytes bytes from the source
(recvReq caps what the source hands over this iteration), append them to the
staging buffer; if anything was received, complete the current flash page when
possible and drain full pages; then flush on the one-shot signal or idle timeout. -/
def writerStep (cfg : Config) (ps : PipeState) (now recvReq : Nat) (flushSig : Bool) :
    PipeState :=
  if 0 < recvCount cfg ps recvReq then
    flushStep cfg
      (fullPages (pageCompleteStep (drainStep cfg ps now recvReq)).pending.length
        (pageCompleteStep (drainStep cfg ps now recvReq)))
      now flushSig
  else
    flushStep cfg ps now flushSig

/-- Initial pipeline state: freshly allocated staging buffer, given source queue. -/
def pipeInit (ring : RingState) (stream : List Nat) : PipeState :=
  { ring := ring, stream := stream, pending := [], writesLog := [], lastData := 0,
    flushMetaCalls := 0, bytesWrittenToFlash := 0, bytesDropped := 0, writeOperations := 0 }

/-- Run the writer task over a list of iteration inputs (time, receive cap,
one-shot flush signal). -/
def runPipe (cfg : Config) (ps : PipeState) (inputs : List (Nat × Nat × Bool)) : PipeState :=
  inputs.foldl (fun a i => writerStep cfg a i.1 i.2.1 i.2.2) ps

/-- Invariant of the writer task during the data phase: the ring is well formed
with the given region size; the source bytes still queued are a suffix of the
original stream and the issued writes plus the staging buffer hold exactly the
consumed prefix; every issued write after the first is exactly one page; and once
a write has been issued the flash cursor is page aligned. -/
def pipeInv (stream0 : List Nat) (sz : Nat) (ps : PipeState) : Prop :=
  ps.ring.size = sz ∧ wf ps.ring ∧ ps.ring.inited = true ∧
  (∃ k, ps.stream = stream0.drop k ∧ ps.writesLog.flatten ++ ps.pending = stream0.take k) ∧
  (∀ w ∈ ps.writesLog.drop 1, w.length = PAGE_SIZE) ∧
  (ps.writesLog = [] ∨ ps.ring.meta.head % PAGE_SIZE = 0)

end DataPipeline

namespace FlashRing

theorem physWrite_meta (s : RingState) (o l : Nat) : (physWrite s o l).meta = s.meta := rfl

theorem physWrite_size (s : RingState) (o l : Nat) : (physWrite s o l).size = s.size := rfl

theorem physWrite_inited (s : RingState) (o l : Nat) : (physWrite s o l).inited = s.inited := rfl

theorem physWrite_sync (s : RingState) (o l : Nat) :
    (physWrite s o l).syncEraseCount = s.syncEraseCount := rfl

theorem physWrite_physBytes (s : RingState) (o l : Nat) :
    physBytes (physWrite s o l) = physBytes s + l := by
  unfold physBytes physWrite
  simp

theorem ensure_head (s : RingState) (p : Nat) :
    (ensurePageErased s p).meta.head = s.meta.head := by
  unfold ensurePageErased; split <;> rfl

theorem ensure_tail (s : RingState) (p : Nat) :
    (ensurePageErased s p).meta.tail = s.meta.tail := by
  unfold ensurePageErased; split <;> rfl

theorem ensure_wrapCount (s : RingState) (p : Nat) :
    (ensurePageErased s p).meta.wrapCount = s.meta.wrapCount := by
  unfold ensurePageErased; split <;> rfl

theorem ensure_totalWritten (s : RingState) (p : Nat) :
    (ensurePageErased s p).meta.totalWritten = s.meta.totalWritten := by
  unfold ensurePageErased; split <;> rfl

theorem ensure_size (s : RingState) (p : Nat) : (ensurePageErased s p).size = s.size := by
  unfold ensurePageErased; split <;> rfl

theorem ensure_inited (s : RingState) (p : Nat) : (ensurePageErased s p).inited = s.inited := by
  unfold ensurePageErased; split <;> rfl

theorem ensure_physBytes (s : RingState) (p : Nat) :
    physBytes (ensurePageErased s p) = physBytes s := by
  unfold ensurePageErased; split <;> rfl

theorem ensure_sync_hit (s : RingState) (p : Nat) (h : isPageErased s.meta.erasedPages p = true) :
    (ensurePageErased s p).syncEraseCount = s.syncEraseCount := by
  unfold ensurePageErased
  rw [if_pos h]

theorem trigUpdate_head (s : RingState) (c : Nat) :
    (trigUpdate s c).meta.head = s.meta.head := by
  unfold trigUpdate; split <;> rfl

theorem trigUpdate_totalWritten (s : RingState) (c : Nat) :
    (trigUpdate s c).meta.totalWritten = s.meta.totalWritten := by
  unfold trigUpdate; split <;> rfl

theorem trigUpdate_size (s : RingState) (c : Nat) : (trigUpdate s c).size = s.size := by
  unfold trigUpdate; split <;> rfl

theorem trigUpdate_inited (s : RingState) (c : Nat) : (trigUpdate s c).inited = s.inited := by
  unfold trigUpdate; split <;> rfl

theorem trigUpdate_sync (s : RingState) (c : Nat) :
    (trigUpdate s c).syncEraseCount = s.syncEraseCount := by
  unfold trigUpdate; split <;> rfl

theorem trigUpdate_erasedPages (s : RingState) (c : Nat) :
    (trigUpdate s c).meta.erasedPages = s.meta.erasedPages := by
  unfold trigUpdate; split <;> rfl

theorem trigUpdate_physBytes (s : RingState) (c : Nat) :
    physBytes (trigUpdate s c) = physBytes s := by
  unfold trigUpdate; split <;> rfl

theorem trigUpdate_tail (s : RingState) (c : Nat) :
    (trigUpdate s c).meta.tail =
      if getUsedBytes s.meta s.size + c ≥ s.size then (s.meta.tail + c) % s.size
      else s.meta.tail := by
  unfold trigUpdate; split <;> simp [*]

theorem trigUpdate_wrapCount (s : RingState) (c : Nat) :
    (trigUpdate s c).meta.wrapCount =
      if getUsedBytes s.meta s.size + c ≥ s.size then
        (if s.meta.wrapCount = 0 ∨ (s.meta.head + c) % s.size < s.meta.head then
          s.meta.wrapCount + 1 else s.meta.wrapCount)
      else s.meta.wrapCount := by
  unfold trigUpdate; split <;> simp [*]

theorem preWrite_head (s : RingState) (c : Nat) : (preWrite s c).meta.head = s.meta.head := by
  unfold preWrite; rw [ensure_head, trigUpdate_head]

theorem preWrite_totalWritten (s : RingState) (c : Nat) :
    (preWrite s c).meta.totalWritten = s.meta.totalWritten := by
  unfold preWrite; rw [ensure_totalWritten, trigUpdate_totalWritten]

theorem preWrite_size (s : RingState) (c : Nat) : (preWrite s c).size = s.size := by
  unfold preWrite; rw [ensure_size, trigUpdate_size]

theorem preWrite_inited (s : RingState) (c : Nat) : (preWrite s c).inited = s.inited := by
  unfold preWrite; rw [ensure_inited, trigUpdate_inited]

theorem preWrite_physBytes (s : RingState) (c : Nat) : physBytes (preWrite s c) = physBytes s := by
  unfold preWrite; rw [ensure_physBytes, trigUpdate_physBytes]

theorem preWrite_tail (s : RingState) (c : Nat) :
    (preWrite s c).meta.tail =
      if getUsedBytes s.meta s.size + c ≥ s.size then (s.meta.tail + c) % s.size
      else s.meta.tail := by
  unfold preWrite; rw [ensure_tail, trigUpdate_tail]

theorem preWrite_wrapCount (s : RingState) (c : Nat) :
    (preWrite s c).meta.wrapCount =
      if getUsedBytes s.meta s.size + c ≥ s.size then
        (if s.meta.wrapCount = 0 ∨ (s.meta.head + c) % s.size < s.meta.head then
          s.meta.wrapCount + 1 else s.meta.wrapCount)
      else s.meta.wrapCount := by
  unfold preWrite; rw [ensure_wrapCount, trigUpdate_wrapCount]

theorem doChunk_size (s : RingState) (c : Nat) : (doChunk s c).size = s.size := by
  unfold doChunk
  rw [physWrite_size, preWrite_size]

theorem doChunk_inited (s : RingState) (c : Nat) : (doChunk s c).inited = s.inited := by
  unfold doChunk
  rw [physWrite_inited, preWrite_inited]

theorem doChunk_head (s : RingState) (c : Nat) :
    (doChunk s c).meta.head = (s.meta.head + c) % s.size := by
  unfold doChunk
  simp [physWrite_size, preWrite_size]

theorem doChunk_totalWritten (s : RingState) (c : Nat) :
    (doChunk s c).meta.totalWritten = (s.meta.totalWritten + c) % UINT32_MOD := by
  unfold doChunk
  simp [physWrite_meta, preWrite_totalWritten]

theorem doChunk_tail (s : RingState) (c : Nat) :
    (doChunk s c).meta.tail =
      if getUsedBytes s.meta s.size + c ≥ s.size then (s.meta.tail + c) % s.size
      else s.meta.tail := by
  unfold doChunk
  simp [physWrite_meta, preWrite_tail]

theorem doChunk_wrapCount (s : RingState) (c : Nat) :
    (doChunk s c).meta.wrapCount =
      if getUsedBytes s.meta s.size + c ≥ s.size then
        (if s.meta.wrapCount = 0 ∨ (s.meta.head + c) % s.size < s.meta.head then
          s.meta.wrapCount + 1 else s.meta.wrapCount)
      else s.meta.wrapCount := by
  unfold doChunk
  simp [physWrite_meta, preWrite_wrapCount]

theorem doChunk_physBytes (s : RingState) (c : Nat) :
    physBytes (doChunk s c) = physBytes s + c := by
  unfold doChunk
  have h1 := physWrite_physBytes (preWrite s c) s.meta.head c
  have h2 := preWrite_physBytes s c
  simp only [physBytes] at *
  simp_all

theorem usedOf_le (size h t : Nat) (hh : h < size) (ht : t < size) :
    (if t ≤ h then h - t else size - t + h) ≤ size - 1 := by
  split <;> omega

theorem getUsedBytes_def (m : Meta) (size : Nat) :
    getUsedBytes m size = if m.tail ≤ m.head then m.head - m.tail else size - m.tail + m.head :=
  rfl

theorem chunkSize_pos (size head rem : Nat) (hh : head < size) (hrem : 0 < rem) :
    0 < chunkSize size head rem := by
  unfold chunkSize PAGE_SIZE
  have : head % 4096 < 4096 := Nat.mod_lt _ (by omega)
  omega

theorem chunkSize_le_rem (size head rem : Nat) : chunkSize size head rem ≤ rem := by
  unfold chunkSize; omega

theorem chunkSize_le_toEnd (size head rem : Nat) : chunkSize size head rem ≤ size - head := by
  unfold chunkSize
  have h1 : min (PAGE_SIZE - head % PAGE_SIZE) (size - head) ≤ size - head := Nat.min_le_right _ _
  omega

end FlashRing

namespace FlashRing

theorem uint32_mod_pos : 0 < UINT32_MOD := by
  unfold UINT32_MOD; omega

theorem wf_trigUpdate (s : RingState) (c : Nat) (h : wf s) : wf (trigUpdate s c) := by
  obtain ⟨h1, h2, h3⟩ := h
  refine ⟨?_, ?_, ?_⟩
  · rw [trigUpdate_head, trigUpdate_size]; exact h1
  · rw [trigUpdate_tail, trigUpdate_size]
    split
    · exact Nat.mod_lt _ (by omega)
    · exact h2
  · rw [trigUpdate_totalWritten]; exact h3

theorem wf_ensure (s : RingState) (p : Nat) (h : wf s) : wf (ensurePageErased s p) := by
  obtain ⟨h1, h2, h3⟩ := h
  refine ⟨?_, ?_, ?_⟩
  · rw [ensure_head, ensure_size]; exact h1
  · rw [ensure_tail, ensure_size]; exact h2
  · rw [ensure_totalWritten]; exact h3

theorem wf_preWrite (s : RingState) (c : Nat) (h : wf s) : wf (preWrite s c) :=
  wf_ensure _ _ (wf_trigUpdate _ _ h)

theorem wf_doChunk (s : RingState) (c : Nat) (h : wf s) : wf (doChunk s c) := by
  obtain ⟨h1, h2, h3⟩ := h
  refine ⟨?_, ?_, ?_⟩
  · rw [doChunk_head, doChunk_size]; exact Nat.mod_lt _ (by omega)
  · rw [doChunk_tail, doChunk_size]
    split
    · exact Nat.mod_lt _ (by omega)
    · exact h2
  · rw [doChunk_totalWritten]; exact Nat.mod_lt _ uint32_mod_pos

theorem writeChunks_wf (errs : List Nat) :
    ∀ fuel k s rem, wf s → wf (writeChunks errs fuel k s rem).2 := by
  intro fuel
  induction fuel with
  | zero => intro k s rem h; exact h
  | succ f ih =>
    intro k s rem h
    rw [writeChunks]
    split
    · exact h
    · split
      · exact h
      · split
        · exact wf_preWrite _ _ h
        · exact ih _ _ _ (wf_doChunk _ _ h)

theorem writeChunks_size (errs : List Nat) :
    ∀ fuel k s rem, (writeChunks errs fuel k s rem).2.size = s.size := by
  intro fuel
  induction fuel with
  | zero => intro k s rem; rfl
  | succ f ih =>
    intro k s rem
    rw [writeChunks]
    split
    · rfl
    · split
      · rfl
      · split
        · exact preWrite_size _ _
        · rw [ih, doChunk_size]

theorem writeChunks_inited (errs : List Nat) :
    ∀ fuel k s rem, (writeChunks errs fuel k s rem).2.inited = s.inited := by
  intro fuel
  induction fuel with
  | zero => intro k s rem; rfl
  | succ f ih =>
    intro k s rem
    rw [writeChunks]
    split
    · rfl
    · split
      · rfl
      · split
        · exact preWrite_inited _ _
        · rw [ih, doChunk_inited]

theorem writeChunks_result (errs : List Nat) :
    ∀ fuel k s rem, (writeChunks errs fuel k s rem).1 = espOk ∨
      ∃ i, i < errs.length ∧ (writeChunks errs fuel k s rem).1 = errs.getD i espOk ∧
        errs.getD i espOk ≠ espOk := by
  intro fuel
  induction fuel with
  | zero => intro k s rem; exact Or.inl rfl
  | succ f ih =>
    intro k s rem
    rw [writeChunks]
    split
    · exact Or.inl rfl
    · split
      · exact Or.inl rfl
      · split
        · rename_i hne
          right
          refine ⟨k, ?_, rfl, hne⟩
          by_contra hk
          have : errs.getD k espOk = espOk := by
            unfold List.getD
            rw [List.get?_eq_none.mpr (by omega)]
            rfl
          exact hne this
        · exact ih _ _ _

theorem writeChunks_physBytes_mono (errs : List Nat) :
    ∀ fuel k s rem, physBytes s ≤ physBytes (writeChunks errs fuel k s rem).2 := by
  intro fuel
  induction fuel with
  | zero => intro k s rem; exact Nat.le_refl _
  | succ f ih =>
    intro k s rem
    rw [writeChunks]
    split
    · exact Nat.le_refl _
    · split
      · exact Nat.le_refl _
      · split
        · rw [preWrite_physBytes]
        · have h1 := ih (k + 1) (doChunk s (chunkSize s.size s.meta.head rem))
            (rem - chunkSize s.size s.meta.head rem)
          rw [doChunk_physBytes] at h1
          omega

theorem writeChunks_physBytes_abort (errs : List Nat) :
    ∀ fuel k s rem, (writeChunks errs fuel k s rem).1 = espOk ∨
      physBytes (writeChunks errs fuel k s rem).2 < physBytes s + rem := by
  intro fuel
  induction fuel with
  | zero => intro k s rem; exact Or.inl rfl
  | succ f ih =>
    intro k s rem
    rw [writeChunks]
    split
    · exact Or.inl rfl
    · split
      · exact Or.inl rfl
      · split
        · rename_i hrem _ _
          right
          have he : physBytes
              (errs.getD k espOk, preWrite s (chunkSize s.size s.meta.head rem)).2
              = physBytes s := preWrite_physBytes _ _
          rw [he]
          omega
        · rename_i hrem hc _
          rcases ih (k + 1) (doChunk s (chunkSize s.size s.meta.head rem))
            (rem - chunkSize s.size s.meta.head rem) with h1 | h1
          · exact Or.inl h1
          · right
            rw [doChunk_physBytes] at h1
            have h3 := chunkSize_le_rem s.size s.meta.head rem
            omega

theorem writeChunks_totalWritten (errs : List Nat) :
    ∀ fuel k s rem, (writeChunks errs fuel k s rem).2.meta.totalWritten = s.meta.totalWritten ∨
      ∃ d, 0 < d ∧ (writeChunks errs fuel k s rem).2.meta.totalWritten =
        (s.meta.totalWritten + d) % UINT32_MOD := by
  intro fuel
  induction fuel with
  | zero => intro k s rem; exact Or.inl rfl
  | succ f ih =>
    intro k s rem
    rw [writeChunks]
    split
    · exact Or.inl rfl
    · split
      · exact Or.inl rfl
      · split
        · exact Or.inl (preWrite_totalWritten _ _)
        · rename_i hrem hc _
          rcases ih (k + 1) (doChunk s (chunkSize s.size s.meta.head rem))
            (rem - chunkSize s.size s.meta.head rem) with h1 | ⟨d, hd, h1⟩
          · right
            refine ⟨chunkSize s.size s.meta.head rem, by omega, ?_⟩
            rw [h1, doChunk_totalWritten]
          · right
            refine ⟨chunkSize s.size s.meta.head rem + d, by omega, ?_⟩
            rw [h1, doChunk_totalWritten, Nat.mod_add_mod, Nat.add_assoc]

end FlashRing

namespace FlashRing

theorem headAdd_mod (n h c : Nat) (hc : h + c ≤ n) :
    (h + c) % n = if h + c = n then 0 else h + c := by
  rcases Nat.eq_or_lt_of_le hc with he | hl
  · simp [he]
  · rw [if_neg (by omega)]; exact Nat.mod_eq_of_lt hl

theorem tailAdd_mod (n t c : Nat) (ht : t < n) (hc : c ≤ n) :
    (t + c) % n = if t + c < n then t + c else t + c - n := by
  rcases Nat.lt_or_ge (t + c) n with h2 | h2
  · rw [if_pos h2]; exact Nat.mod_eq_of_lt h2
  · rw [if_neg (by omega), Nat.mod_eq_sub_mod h2]
    exact Nat.mod_eq_of_lt (by omega)

theorem usedOf_arith_trig (n h t c : Nat) (hh : h < n) (ht : t < n) (hc : h + c ≤ n)
    (htrig : n ≤ (if t ≤ h then h - t else n - t + h) + c) :
    (if (t + c) % n ≤ (h + c) % n then (h + c) % n - (t + c) % n
     else n - (t + c) % n + (h + c) % n) = if t ≤ h then h - t else n - t + h := by
  rw [headAdd_mod n h c hc, tailAdd_mod n t c ht (by omega)]
  split_ifs at htrig ⊢ <;> omega

theorem usedOf_arith_free (n h t c : Nat) (hh : h < n) (ht : t < n) (hc : h + c ≤ n)
    (hfree : (if t ≤ h then h - t else n - t + h) + c < n) :
    (if t ≤ (h + c) % n then (h + c) % n - t else n - t + (h + c) % n)
      = (if t ≤ h then h - t else n - t + h) + c := by
  rw [headAdd_mod n h c hc]
  split_ifs at hfree ⊢ <;> omega

theorem used_doChunk_trig (s : RingState) (c : Nat) (h : wf s)
    (hc2 : s.meta.head + c ≤ s.size)
    (htrig : getUsedBytes s.meta s.size + c ≥ s.size) :
    getUsedBytes (doChunk s c).meta (doChunk s c).size = getUsedBytes s.meta s.size := by
  obtain ⟨h1, h2, _⟩ := h
  have htail : (doChunk s c).meta.tail = (s.meta.tail + c) % s.size := by
    rw [doChunk_tail, if_pos htrig]
  rw [doChunk_size, getUsedBytes_def, doChunk_head, htail, getUsedBytes_def]
  rw [getUsedBytes_def] at htrig
  exact usedOf_arith_trig s.size s.meta.head s.meta.tail c h1 h2 hc2 htrig

theorem used_doChunk_free (s : RingState) (c : Nat) (h : wf s)
    (hc2 : s.meta.head + c ≤ s.size)
    (hfree : getUsedBytes s.meta s.size + c < s.size) :
    getUsedBytes (doChunk s c).meta (doChunk s c).size = getUsedBytes s.meta s.size + c := by
  obtain ⟨h1, h2, _⟩ := h
  have htail : (doChunk s c).meta.tail = s.meta.tail := by
    rw [doChunk_tail, if_neg (by omega)]
  rw [doChunk_size, getUsedBytes_def, doChunk_head, htail, getUsedBytes_def]
  rw [getUsedBytes_def] at hfree
  exact usedOf_arith_free s.size s.meta.head s.meta.tail c h1 h2 hc2 hfree

theorem writeChunks_noTrig (errs : List Nat) :
    ∀ fuel k s rem, wf s → getUsedBytes s.meta s.size + rem < s.size →
      (writeChunks errs fuel k s rem).2.meta.tail = s.meta.tail ∧
      (writeChunks errs fuel k s rem).2.meta.wrapCount = s.meta.wrapCount := by
  intro fuel
  induction fuel with
  | zero => intro k s rem _ _; exact ⟨rfl, rfl⟩
  | succ f ih =>
    intro k s rem hwf hfree
    rw [writeChunks]
    split
    · exact ⟨rfl, rfl⟩
    · split
      · exact ⟨rfl, rfl⟩
      · have hcr := chunkSize_le_rem s.size s.meta.head rem
        have hnt : ¬ (getUsedBytes s.meta s.size + chunkSize s.size s.meta.head rem ≥ s.size) := by
          omega
        split
        · constructor
          · have he : (errs.getD k espOk,
                preWrite s (chunkSize s.size s.meta.head rem)).2.meta.tail
                = s.meta.tail := by rw [preWrite_tail, if_neg hnt]
            exact he
          · have he : (errs.getD k espOk,
                preWrite s (chunkSize s.size s.meta.head rem)).2.meta.wrapCount
                = s.meta.wrapCount := by rw [preWrite_wrapCount, if_neg hnt]
            exact he
        · have hct := chunkSize_le_toEnd s.size s.meta.head rem
          have hc2 : s.meta.head + chunkSize s.size s.meta.head rem ≤ s.size := by
            have := hwf.1; omega
          have hused := used_doChunk_free s (chunkSize s.size s.meta.head rem) hwf hc2 (by omega)
          have hrec := ih (k + 1) (doChunk s (chunkSize s.size s.meta.head rem))
            (rem - chunkSize s.size s.meta.head rem) (wf_doChunk _ _ hwf) (by
              rw [doChunk_size] at hused ⊢
              rw [hused]
              omega)
          rw [hrec.1, hrec.2, doChunk_tail, doChunk_wrapCount, if_neg hnt, if_neg hnt]
          exact ⟨rfl, rfl⟩

theorem getD_nil (k : Nat) (d : Nat) : ([] : List Nat).getD k d = d := by
  simp [List.getD]

theorem writeChunks_head_ok :
    ∀ fuel k s rem, rem ≤ fuel → wf s →
      (writeChunks [] fuel k s rem).2.meta.head = (s.meta.head + rem) % s.size ∧
      (writeChunks [] fuel k s rem).1 = espOk := by
  intro fuel
  induction fuel with
  | zero =>
    intro k s rem hle hwf
    have h0 : rem = 0 := by omega
    subst h0
    constructor
    · show s.meta.head = (s.meta.head + 0) % s.size
      rw [Nat.add_zero, Nat.mod_eq_of_lt hwf.1]
    · rfl
  | succ f ih =>
    intro k s rem hle hwf
    rw [writeChunks]
    split
    · rename_i h0
      subst h0
      constructor
      · show s.meta.head = (s.meta.head + 0) % s.size
        rw [Nat.add_zero, Nat.mod_eq_of_lt hwf.1]
      · rfl
    · split
      · rename_i h0 hc
        exact absurd (chunkSize_pos s.size s.meta.head rem hwf.1 (by omega)) (by omega)
      · split
        · rename_i hne
          exact absurd (getD_nil k espOk) hne
        · rename_i h0 hc hne
          have hcp := chunkSize_pos s.size s.meta.head rem hwf.1 (by omega)
          have hcr := chunkSize_le_rem s.size s.meta.head rem
          have hrec := ih (k + 1) (doChunk s (chunkSize s.size s.meta.head rem))
            (rem - chunkSize s.size s.meta.head rem) (by omega) (wf_doChunk _ _ hwf)
          refine ⟨?_, hrec.2⟩
          rw [hrec.1, doChunk_head, doChunk_size, Nat.mod_add_mod]
          congr 1
          omega

theorem write_size (s : RingState) (len : Nat) : (write s len).2.size = s.size := by
  unfold write writeDev
  split_ifs <;> first | rfl | exact writeChunks_size _ _ _ _ _

theorem write_inited (s : RingState) (len : Nat) : (write s len).2.inited = s.inited := by
  unfold write writeDev
  split_ifs <;> first | rfl | exact writeChunks_inited _ _ _ _ _

theorem write_wf (s : RingState) (len : Nat) (h : wf s) : wf (write s len).2 := by
  unfold write writeDev
  split_ifs <;> first | exact h | exact writeChunks_wf _ _ _ _ _ h

theorem write_success (s : RingState) (len : Nat) (hI : s.inited = true) (hwf : wf s)
    (hpos : 0 < len) (hle : len ≤ s.size) :
    (write s len).1 = espOk ∧ (write s len).2.meta.head = (s.meta.head + len) % s.size := by
  unfold write writeDev
  rw [hI]
  rw [if_neg (by simp), if_neg (by omega), if_neg (by omega)]
  have h := writeChunks_head_ok len 0 s len (Nat.le_refl _) hwf
  exact ⟨h.2, h.1⟩

theorem consume_size (s : RingState) (len : Nat) : (consume s len).2.size = s.size := by
  unfold consume; split <;> rfl

theorem consume_head (s : RingState) (len : Nat) :
    (consume s len).2.meta.head = s.meta.head := by
  unfold consume; split <;> rfl

theorem consume_totalWritten (s : RingState) (len : Nat) :
    (consume s len).2.meta.totalWritten = s.meta.totalWritten := by
  unfold consume; split <;> rfl

theorem consume_inited (s : RingState) (len : Nat) : (consume s len).2.inited = s.inited := by
  unfold consume; split <;> rfl

theorem readAt_state (s : RingState) (o l : Nat) : (readAt s o l).2.2 = s := by
  unfold readAt
  split
  · rfl
  · split <;> rfl

theorem flushMeta_meta (s : RingState) : (flushMetadata s).2.meta = s.meta := by
  unfold flushMetadata; split <;> rfl

theorem flushMeta_size (s : RingState) : (flushMetadata s).2.size = s.size := by
  unfold flushMetadata; split <;> rfl

theorem flushMeta_inited (s : RingState) : (flushMetadata s).2.inited = s.inited := by
  unfold flushMetadata; split <;> rfl

theorem erase_size (s : RingState) : (erase s).2.size = s.size := by
  unfold erase; split <;> rfl

theorem erase_inited (s : RingState) : (erase s).2.inited = s.inited := by
  unfold erase; split <;> rfl

theorem preErase_meta_head (s : RingState) : (preEraseStep s).meta.head = s.meta.head := by
  unfold preEraseStep; split_ifs <;> rfl

theorem preErase_meta_tail (s : RingState) : (preEraseStep s).meta.tail = s.meta.tail := by
  unfold preEraseStep; split_ifs <;> rfl

theorem preErase_totalWritten (s : RingState) :
    (preEraseStep s).meta.totalWritten = s.meta.totalWritten := by
  unfold preEraseStep; split_ifs <;> rfl

theorem preErase_size (s : RingState) : (preEraseStep s).size = s.size := by
  unfold preEraseStep; split_ifs <;> rfl

theorem preErase_inited (s : RingState) : (preEraseStep s).inited = s.inited := by
  unfold preEraseStep; split_ifs <;> rfl

theorem wf_consume (s : RingState) (len : Nat) (h : wf s) : wf (consume s len).2 := by
  unfold consume
  split
  · exact h
  · obtain ⟨h1, h2, h3⟩ := h
    exact ⟨h1, Nat.mod_lt _ (by omega), h3⟩

theorem wf_erase (s : RingState) (h : wf s) : wf (erase s).2 := by
  unfold erase
  split
  · exact h
  · refine ⟨?_, ?_, ?_⟩
    · show (0 : Nat) < s.size
      have := h.1; omega
    · show (0 : Nat) < s.size
      have := h.1; omega
    · show (0 : Nat) < UINT32_MOD
      exact uint32_mod_pos

theorem wf_step (s : RingState) (op : Op) (h : wf s) : wf (step s op) := by
  cases op with
  | doWrite l => exact write_wf s l h
  | doConsume l => exact wf_consume s l h
  | doReadAt o l => rw [step, readAt_state]; exact h
  | doErase => exact wf_erase s h
  | doFlushMeta =>
    show wf (flushMetadata s).2
    obtain ⟨h1, h2, h3⟩ := h
    refine ⟨?_, ?_, ?_⟩
    · rw [flushMeta_meta, flushMeta_size]; exact h1
    · rw [flushMeta_meta, flushMeta_size]; exact h2
    · rw [flushMeta_meta]; exact h3
  | doStats => exact h
  | doPreErase =>
    show wf (preEraseStep s)
    obtain ⟨h1, h2, h3⟩ := h
    refine ⟨?_, ?_, ?_⟩
    · rw [preErase_meta_head, preErase_size]; exact h1
    · rw [preErase_meta_tail, preErase_size]; exact h2
    · rw [preErase_totalWritten]; exact h3

theorem step_size (s : RingState) (op : Op) : (step s op).size = s.size := by
  cases op with
  | doWrite l => exact write_size s l
  | doConsume l => exact consume_size s l
  | doReadAt o l => rw [step, readAt_state]
  | doErase => exact erase_size s
  | doFlushMeta => exact flushMeta_size s
  | doStats => rfl
  | doPreErase => exact preErase_size s

theorem step_inited (s : RingState) (op : Op) : (step s op).inited = s.inited := by
  cases op with
  | doWrite l => exact write_inited s l
  | doConsume l => exact consume_inited s l
  | doReadAt o l => rw [step, readAt_state]
  | doErase => exact erase_inited s
  | doFlushMeta => exact flushMeta_inited s
  | doStats => rfl
  | doPreErase => exact preErase_inited s

theorem wf_run (s : RingState) (ops : List Op) (h : wf s) : wf (run s ops) := by
  induction ops generalizing s with
  | nil => exact h
  | cons op rest ih => exact ih (step s op) (wf_step s op h)

theorem run_size (s : RingState) (ops : List Op) : (run s ops).size = s.size := by
  induction ops generalizing s with
  | nil => rfl
  | cons op rest ih =>
    show (run (step s op) rest).size = s.size
    rw [ih, step_size]

theorem run_inited (s : RingState) (ops : List Op) : (run s ops).inited = s.inited := by
  induction ops generalizing s with
  | nil => rfl
  | cons op rest ih =>
    show (run (step s op) rest).inited = s.inited
    rw [ih, step_inited]

theorem initFresh_size (n : Nat) : (initFresh n).size = n := rfl

theorem initFresh_head (n : Nat) : (initFresh n).meta.head = 0 := rfl

theorem initFresh_tail (n : Nat) : (initFresh n).meta.tail = 0 := rfl

theorem initFresh_totalWritten (n : Nat) : (initFresh n).meta.totalWritten = 0 := rfl

theorem initFresh_inited (n : Nat) : (initFresh n).inited = true := rfl

theorem initFresh_wf (n : Nat) (h : 0 < n) : wf (initFresh n) := by
  refine ⟨?_, ?_, ?_⟩
  · rw [initFresh_head, initFresh_size]; exact h
  · rw [initFresh_tail, initFresh_size]; exact h
  · rw [initFresh_totalWritten]; exact uint32_mod_pos

end FlashRing

namespace FlashRing

theorem stats_eval (s : RingState) (hI : s.inited = true) :
    getStats s = some { partitionSize := s.size
                      , usedBytes := getUsedBytes s.meta s.size
                      , freeBytes := s.size - getUsedBytes s.meta s.size - 1
                      , wrapCount := s.meta.wrapCount
                      , totalWritten := s.meta.totalWritten } := by
  unfold getStats getFreeBytes
  rw [hI]
  simp

/-- C1: starting from an empty cursor (head = tail = 0), after every sequence of
write and consume calls (each write with len at most regionSize), usedBytes is at
most regionSize - 1, head and tail remain inside the region, and getStats reports
freeBytes = regionSize - usedBytes - 1. -/
theorem c1_ring_invariants (size : Nat) (hsz : 0 < size) (ops : List Op)
    (_hops : ∀ op ∈ ops, (∃ l, op = Op.doWrite l ∧ l ≤ size) ∨ ∃ l, op = Op.doConsume l) :
    getUsedBytes (run (initFresh size) ops).meta size ≤ size - 1 ∧
    (run (initFresh size) ops).meta.head < size ∧
    (run (initFresh size) ops).meta.tail < size ∧
    getStats (run (initFresh size) ops) =
      some { partitionSize := size
           , usedBytes := getUsedBytes (run (initFresh size) ops).meta size
           , freeBytes := size - getUsedBytes (run (initFresh size) ops).meta size - 1
           , wrapCount := (run (initFresh size) ops).meta.wrapCount
           , totalWritten := (run (initFresh size) ops).meta.totalWritten } := by
  have hwf := wf_run (initFresh size) ops (initFresh_wf size hsz)
  have hs : (run (initFresh size) ops).size = size := by
    rw [run_size, initFresh_size]
  have hi : (run (initFresh size) ops).inited = true := by
    rw [run_inited, initFresh_inited]
  obtain ⟨w1, w2, _⟩ := hwf
  rw [hs] at w1 w2
  refine ⟨?_, w1, w2, ?_⟩
  · rw [getUsedBytes_def]
    exact usedOf_le size _ _ w1 w2
  · rw [stats_eval _ hi, hs]

/-- C1 witness: a concrete sequence of writes and consumes on a 12288-byte region. -/
theorem c1_witness :
    getUsedBytes (run (initFresh 12288)
        [Op.doWrite 5000, Op.doConsume 1000, Op.doWrite 9000]).meta 12288 ≤ 12288 - 1 ∧
    (run (initFresh 12288)
        [Op.doWrite 5000, Op.doConsume 1000, Op.doWrite 9000]).meta.head < 12288 ∧
    (run (initFresh 12288)
        [Op.doWrite 5000, Op.doConsume 1000, Op.doWrite 9000]).meta.tail < 12288 ∧
    getStats (run (initFresh 12288)
        [Op.doWrite 5000, Op.doConsume 1000, Op.doWrite 9000]) =
      some { partitionSize := 12288
           , usedBytes := getUsedBytes (run (initFresh 12288)
               [Op.doWrite 5000, Op.doConsume 1000, Op.doWrite 9000]).meta 12288
           , freeBytes := 12288 - getUsedBytes (run (initFresh 12288)
               [Op.doWrite 5000, Op.doConsume 1000, Op.doWrite 9000]).meta 12288 - 1
           , wrapCount := (run (initFresh 12288)
               [Op.doWrite 5000, Op.doConsume 1000, Op.doWrite 9000]).meta.wrapCount
           , totalWritten := (run (initFresh 12288)
               [Op.doWrite 5000, Op.doConsume 1000, Op.doWrite 9000]).meta.totalWritten } :=
  c1_ring_invariants 12288 (by omega)
    [Op.doWrite 5000, Op.doConsume 1000, Op.doWrite 9000]
    (by
      intro op hop
      simp only [List.mem_cons, List.not_mem_nil, or_false] at hop
      rcases hop with h | h | h
      · exact Or.inl ⟨5000, h, by omega⟩
      · exact Or.inr ⟨1000, h⟩
      · exact Or.inl ⟨9000, h, by omega⟩)

/-- C10: on an initialized store, write with len = 0 returns ESP_OK and leaves the
whole state (head, tail, totalWritten, wrapCount, erased-page cache, shadow flash,
physical-write log) unchanged: the data pointer is never dereferenced. -/
theorem c10_zero_write_noop (s : RingState) (hI : s.inited = true) :
    write s 0 = (espOk, s) := by
  unfold write writeDev
  rw [hI]
  simp

/-- C10 witness: the zero-length write on a concrete fresh store. -/
theorem c10_witness : write (initFresh 12288) 0 = (espOk, initFresh 12288) :=
  c10_zero_write_noop (initFresh 12288) rfl

/-- C2 (code bug): on a 3-page region, after init and one full pass, a second pass
trusts the stale cache entry for page 1 (inserted at init, never invalidated by the
writes of the first pass, and skipped by the pre-erase task because it is still in
the cache) and physically writes to a page whose shadow erased bit is clear, so the
erase-before-write check fails. -/
theorem c2_erase_before_write_violation :
    (write (initFresh 12288) 12288).2.ebwOk = true ∧
    (write (write (initFresh 12288) 12288).2 4097).2.ebwOk = false := by decide

/-- C3 counterexample: a write-only sequence on a 12288-byte region after which one
more write call moves head from 12200 numerically down to 0 while wrapCount stays
at 1, contradicting the claim that wrapCount increases by exactly one each time
head crosses from a higher to a lower value across a write. -/
theorem c3_counterexample :
    (run (initFresh 12288) [Op.doWrite 12192, Op.doWrite 96, Op.doWrite 4096,
        Op.doWrite 4096, Op.doWrite 3908, Op.doWrite 100]).meta.head = 12200 ∧
    (run (initFresh 12288) [Op.doWrite 12192, Op.doWrite 96, Op.doWrite 4096,
        Op.doWrite 4096, Op.doWrite 3908, Op.doWrite 100]).meta.wrapCount = 1 ∧
    (write (run (initFresh 12288) [Op.doWrite 12192, Op.doWrite 96, Op.doWrite 4096,
        Op.doWrite 4096, Op.doWrite 3908, Op.doWrite 100]) 88).2.meta.head = 0 ∧
    (write (run (initFresh 12288) [Op.doWrite 12192, Op.doWrite 96, Op.doWrite 4096,
        Op.doWrite 4096, Op.doWrite 3908, Op.doWrite 100]) 88).2.meta.wrapCount = 1 := by
  decide

/-- C3 amended: wrapCount can change only in write calls that overwrite old data;
a write call entered with usedBytes + len < regionSize leaves wrapCount and tail
unchanged, even when head numerically crosses from a higher to a lower value. -/
theorem c3_wrapcount_amended (s : RingState) (len : Nat) (hwf : wf s)
    (hfree : getUsedBytes s.meta s.size + len < s.size) :
    (write s len).2.meta.wrapCount = s.meta.wrapCount ∧
    (write s len).2.meta.tail = s.meta.tail := by
  unfold write writeDev
  split_ifs
  · exact ⟨rfl, rfl⟩
  · exact ⟨rfl, rfl⟩
  · exact ⟨rfl, rfl⟩
  · have h := writeChunks_noTrig [] len 0 s len hwf hfree
    exact ⟨h.2, h.1⟩

/-- C3 witness: a concrete free-space write that leaves wrapCount and tail alone. -/
theorem c3_witness :
    (write (initFresh 12288) 100).2.meta.wrapCount = (initFresh 12288).meta.wrapCount ∧
    (write (initFresh 12288) 100).2.meta.tail = (initFresh 12288).meta.tail :=
  c3_wrapcount_amended (initFresh 12288) 100 (by decide) (by decide)

/-- C4 counterexample: a single 70000-byte write on a freshly initialized
65536-byte region does not produce wrapCount = 1 and usedBytes = 65535; it is
rejected with ESP_ERR_INVALID_SIZE (70000 exceeds the partition size) and leaves
the store unchanged. -/
theorem c4_counterexample :
    (write (initFresh 65536) 70000).1 = espErrInvalidSize ∧
    (write (initFresh 65536) 70000).2 = initFresh 65536 ∧
    ¬ ((write (initFresh 65536) 70000).2.meta.wrapCount = 1 ∧
       getUsedBytes (write (initFresh 65536) 70000).2.meta 65536 = 65535) := by
  decide

/-- C4 amended: write(70000) on the fresh 65536-byte store fails with
ESP_ERR_INVALID_SIZE leaving the store unchanged; the largest accepted single
write, 65536 bytes, produces exactly one wrap, usedBytes = 61440, and getStats
then reports freeBytes = 65536 - 61440 - 1 = 4095. -/
theorem c4_amended :
    (write (initFresh 65536) 70000).1 = espErrInvalidSize ∧
    (write (initFresh 65536) 70000).2 = initFresh 65536 ∧
    (write (initFresh 65536) 65536).1 = espOk ∧
    (write (initFresh 65536) 65536).2.meta.wrapCount = 1 ∧
    getUsedBytes (write (initFresh 65536) 65536).2.meta 65536 = 61440 ∧
    getStats (write (initFresh 65536) 65536).2 =
      some { partitionSize := 65536, usedBytes := 61440, freeBytes := 65536 - 61440 - 1,
             wrapCount := 1, totalWritten := 65536 } := by
  decide

/-- C9 counterexample: erase() resets totalWritten to zero, so the counter is not
monotonically non-decreasing across every operation: after writing 5 bytes the
counter is 5, and the following erase drops it back to 0. -/
theorem c9_counterexample :
    (write (initFresh 12288) 5).2.meta.totalWritten = 5 ∧
    (erase (write (initFresh 12288) 5).2).2.meta.totalWritten = 0 ∧
    (erase (write (initFresh 12288) 5).2).2.meta.totalWritten <
      (write (initFresh 12288) 5).2.meta.totalWritten := by
  decide

/-- C9 amended: on an initialized store, totalWritten is left unchanged by every
operation other than write and erase; write only adds to it (modulo the 32-bit
width); erase resets it to zero. -/
theorem c9_totalwritten_amended (s : RingState) (op : Op) (hI : s.inited = true) :
    (op = Op.doErase → (step s op).meta.totalWritten = 0) ∧
    ((∀ l, op ≠ Op.doWrite l) → op ≠ Op.doErase →
      (step s op).meta.totalWritten = s.meta.totalWritten) ∧
    (∀ l, op = Op.doWrite l →
      (step s op).meta.totalWritten = s.meta.totalWritten ∨
      ∃ d, 0 < d ∧
        (step s op).meta.totalWritten = (s.meta.totalWritten + d) % UINT32_MOD) := by
  refine ⟨?_, ?_, ?_⟩
  · intro h
    subst h
    show (erase s).2.meta.totalWritten = 0
    unfold erase
    rw [if_neg (by rw [hI]; simp)]
  · intro hnw hne
    cases op with
    | doWrite l => exact absurd rfl (hnw l)
    | doConsume l => exact consume_totalWritten s l
    | doReadAt o l => rw [step, readAt_state]
    | doErase => exact absurd rfl hne
    | doFlushMeta => show (flushMetadata s).2.meta.totalWritten = _; rw [flushMeta_meta]
    | doStats => rfl
    | doPreErase => exact preErase_totalWritten s
  · intro l h
    subst h
    show (write s l).2.meta.totalWritten = s.meta.totalWritten ∨
      ∃ d, 0 < d ∧ (write s l).2.meta.totalWritten = (s.meta.totalWritten + d) % UINT32_MOD
    unfold write writeDev
    split_ifs
    · exact Or.inl rfl
    · exact Or.inl rfl
    · exact Or.inl rfl
    · exact writeChunks_totalWritten [] l 0 s l

/-- C9 witness: consume leaves totalWritten unchanged on a concrete store. -/
theorem c9_witness :
    (step (initFresh 12288) (Op.doConsume 7)).meta.totalWritten =
      (initFresh 12288).meta.totalWritten :=
  (c9_totalwritten_amended (initFresh 12288) (Op.doConsume 7) rfl).2.1
    (fun _ h => Op.noConfusion h) (fun h => Op.noConfusion h)

end FlashRing

namespace FlashRing

theorem erase_eval (s : RingState) (hI : s.inited = true) :
    erase s = (espOk,
      { s with shadow := s.shadow.map (fun _ => true),
               meta := { head := 0, tail := 0, totalWritten := 0, wrapCount := 0,
                         erasedPages := [some 0, some 1] },
               persisted := some { head := 0, tail := 0, totalWritten := 0, wrapCount := 0,
                                   erasedPages := [some 0, some 1] } }) := by
  unfold erase
  rw [if_neg (by rw [hI]; simp)]
  rfl

theorem doChunk_sync_hit (s : RingState) (c : Nat)
    (h : isPageErased s.meta.erasedPages (s.meta.head / PAGE_SIZE) = true) :
    (doChunk s c).syncEraseCount = s.syncEraseCount := by
  show (physWrite (preWrite s c) s.meta.head c).syncEraseCount = s.syncEraseCount
  rw [physWrite_sync]
  unfold preWrite
  have h' : isPageErased (trigUpdate s c).meta.erasedPages (s.meta.head / PAGE_SIZE) = true := by
    rw [trigUpdate_erasedPages]; exact h
  rw [ensure_sync_hit _ _ h', trigUpdate_sync]

theorem write_one_after_erase (s' : RingState) (hI : s'.inited = true) (hsz : 0 < s'.size)
    (hh : s'.meta.head = 0)
    (hcache : isPageErased s'.meta.erasedPages 0 = true) :
    (write s' 1).1 = espOk ∧ (write s' 1).2.syncEraseCount = s'.syncEraseCount := by
  have hwrite : write s' 1 = (espOk, doChunk s' (chunkSize s'.size s'.meta.head 1)) := by
    unfold write writeDev
    rw [if_neg (by rw [hI]; simp), if_neg (by omega), if_neg (by omega)]
    rw [writeChunks]
    rw [if_neg (by omega)]
    have hc : chunkSize s'.size s'.meta.head 1 ≠ 0 := by
      have := chunkSize_pos s'.size s'.meta.head 1 (by rw [hh]; omega) (by omega)
      omega
    rw [if_neg hc]
    rw [if_neg (by simp [getD_nil])]
    rfl
  rw [hwrite]
  refine ⟨rfl, ?_⟩
  apply doChunk_sync_hit
  rw [hh]
  simpa using hcache

/-- C7: on any initialized store, erase() resets head, tail and wrapCount to zero,
re-seeds the erased-page cache with pages 0 and 1 (the PRE_ERASE_PAGES cache
slots), persists the metadata immediately, and a subsequent one-byte write
succeeds without taking the synchronous-erase fallback path. -/
theorem c7_erase_resets (s : RingState) (hI : s.inited = true) (hsz : 0 < s.size) :
    (erase s).1 = espOk ∧
    (erase s).2.meta.head = 0 ∧
    (erase s).2.meta.tail = 0 ∧
    (erase s).2.meta.wrapCount = 0 ∧
    (erase s).2.meta.erasedPages = [some 0, some 1] ∧
    (erase s).2.persisted = some (erase s).2.meta ∧
    (write (erase s).2 1).1 = espOk ∧
    (write (erase s).2 1).2.syncEraseCount = (erase s).2.syncEraseCount := by
  rw [erase_eval s hI]
  have hw := write_one_after_erase
    { s with shadow := s.shadow.map (fun _ => true),
             meta := { head := 0, tail := 0, totalWritten := 0, wrapCount := 0,
                       erasedPages := [some 0, some 1] },
             persisted := some { head := 0, tail := 0, totalWritten := 0, wrapCount := 0,
                                 erasedPages := [some 0, some 1] } }
    hI hsz rfl rfl
  exact ⟨rfl, rfl, rfl, rfl, rfl, rfl, hw.1, hw.2⟩

/-- C7 witness: erase and a following one-byte write on a concrete store with
wrapCount 3 and head 12000. -/
theorem c7_witness :
    (erase (RingState.mk 65536 true (Meta.mk 12000 300 999 3 [some 5, some 6])
        (List.replicate 16 false) true [] 0 none)).2.meta.wrapCount = 0 ∧
    (write (erase (RingState.mk 65536 true (Meta.mk 12000 300 999 3 [some 5, some 6])
        (List.replicate 16 false) true [] 0 none)).2 1).1 = espOk := by
  have h := c7_erase_resets
    (RingState.mk 65536 true (Meta.mk 12000 300 999 3 [some 5, some 6])
      (List.replicate 16 false) true [] 0 none) rfl (by decide)
  exact ⟨h.2.2.2.1, h.2.2.2.2.2.2.1⟩

theorem getD_mem (l : List Nat) (i : Nat) (d : Nat) (h : i < l.length) : l.getD i d ∈ l := by
  rw [List.getD_eq_getElem l d h]
  exact List.getElem_mem h

theorem writeDev_eval (errs : List Nat) (s : RingState) (len : Nat) (hI : s.inited = true) :
    writeDev errs s len =
      if len = 0 then (espOk, s)
      else if len > s.size then (espErrInvalidSize, s)
      else writeChunks errs len 0 s len := by
  unfold writeDev
  rw [hI]
  simp

/-- C8: on an initialized store write fails with ESP_ERR_INVALID_SIZE exactly when
len exceeds the region size, and then the state is unchanged; when an underlying
block-device write fails mid-call, the device error code is propagated to the
caller and the call aborts with fewer than len bytes physically written (the
remaining data segment is un-written). -/
theorem c8_write_errors (errs : List Nat) (s : RingState) (len : Nat)
    (hI : s.inited = true) (hne : ∀ e ∈ errs, e ≠ espErrInvalidSize) :
    ((writeDev errs s len).1 = espErrInvalidSize ↔ s.size < len) ∧
    (s.size < len → (writeDev errs s len).2 = s) ∧
    (len ≤ s.size → (writeDev errs s len).1 ≠ espOk →
      (writeDev errs s len).1 ∈ errs ∧
      physBytes (writeDev errs s len).2 < physBytes s + len ∧
      physBytes s ≤ physBytes (writeDev errs s len).2) := by
  rw [writeDev_eval errs s len hI]
  by_cases h0 : len = 0
  · subst h0
    rw [if_pos rfl]
    refine ⟨⟨?_, ?_⟩, ?_, ?_⟩
    · intro h
      exact absurd h (by unfold espOk espErrInvalidSize; omega)
    · intro h
      exact absurd h (Nat.not_lt_zero _)
    · intro h
      exact absurd h (Nat.not_lt_zero _)
    · intro _ h
      exact absurd rfl h
  · rw [if_neg h0]
    by_cases h1 : len > s.size
    · rw [if_pos h1]
      refine ⟨⟨fun _ => h1, fun _ => rfl⟩, fun _ => rfl, ?_⟩
      intro hle _
      exact absurd h1 (by omega)
    · rw [if_neg h1]
      refine ⟨⟨?_, ?_⟩, ?_, ?_⟩
      · intro hres
        exfalso
        rcases writeChunks_result errs len 0 s len with hok | ⟨i, hi, heq, _⟩
        · rw [hok] at hres
          exact absurd hres (by unfold espOk espErrInvalidSize; omega)
        · rw [heq] at hres
          exact hne _ (getD_mem errs i espOk hi) hres
      · intro hlt
        exact absurd hlt h1
      · intro hlt
        exact absurd hlt h1
      · intro _ hres
        rcases writeChunks_result errs len 0 s len with hok | ⟨i, hi, heq, _⟩
        · exact absurd hok hres
        · refine ⟨?_, ?_, writeChunks_physBytes_mono errs len 0 s len⟩
          · rw [heq]
            exact getD_mem errs i espOk hi
          · rcases writeChunks_physBytes_abort errs len 0 s len with hok2 | hlt2
            · exact absurd hok2 hres
            · exact hlt2

/-- C8 witness: a 20000-byte write on a 12288-byte fresh store with a device that
would fail with code 261 on its first physical write. -/
theorem c8_witness :
    ((writeDev [261] (initFresh 12288) 20000).1 = espErrInvalidSize ↔
      (initFresh 12288).size < 20000) ∧
    ((initFresh 12288).size < 20000 →
      (writeDev [261] (initFresh 12288) 20000).2 = initFresh 12288) ∧
    (20000 ≤ (initFresh 12288).size →
      (writeDev [261] (initFresh 12288) 20000).1 ≠ espOk →
      (writeDev [261] (initFresh 12288) 20000).1 ∈ [261] ∧
      physBytes (writeDev [261] (initFresh 12288) 20000).2 <
        physBytes (initFresh 12288) + 20000 ∧
      physBytes (initFresh 12288) ≤ physBytes (writeDev [261] (initFresh 12288) 20000).2) :=
  c8_write_errors [261] (initFresh 12288) 20000 rfl (by decide)

end FlashRing

namespace DataPipeline

open FlashRing

theorem issueWrite_pending (ps : PipeState) (buf : List Nat) :
    (issueWrite ps buf).pending = ps.pending := by
  unfold issueWrite; split <;> rfl

theorem issueWrite_stream (ps : PipeState) (buf : List Nat) :
    (issueWrite ps buf).stream = ps.stream := by
  unfold issueWrite; split <;> rfl

theorem issueWrite_lastData (ps : PipeState) (buf : List Nat) :
    (issueWrite ps buf).lastData = ps.lastData := by
  unfold issueWrite; split <;> rfl

theorem issueWrite_flushMetaCalls (ps : PipeState) (buf : List Nat) :
    (issueWrite ps buf).flushMetaCalls = ps.flushMetaCalls := by
  unfold issueWrite; split <;> rfl

theorem issueWrite_writesLog (ps : PipeState) (buf : List Nat) :
    (issueWrite ps buf).writesLog = ps.writesLog ++ [buf] := by
  unfold issueWrite; split <;> rfl

theorem issueWrite_ring (ps : PipeState) (buf : List Nat) :
    (issueWrite ps buf).ring = (FlashRing.write ps.ring buf.length).2 := by
  unfold issueWrite; split <;> rfl

theorem page_le_size (size : Nat) (hm : size % PAGE_SIZE = 0) (h0 : 0 < size) :
    PAGE_SIZE ≤ size :=
  Nat.le_of_dvd h0 (Nat.dvd_of_mod_eq_zero hm)

theorem write_preserves_align (r : RingState) (len : Nat) (hI : r.inited = true) (hw : wf r)
    (hm : r.size % PAGE_SIZE = 0) (hpos : 0 < len) (hle : len ≤ r.size) :
    (FlashRing.write r len).2.meta.head % PAGE_SIZE = (r.meta.head + len) % PAGE_SIZE := by
  have h := (write_success r len hI hw hpos hle).2
  rw [h, Nat.mod_mod_of_dvd _ (Nat.dvd_of_mod_eq_zero hm)]

theorem fullPages_small (fuel : Nat) (ps : PipeState) (h : ps.pending.length < PAGE_SIZE) :
    fullPages fuel ps = ps := by
  cases fuel with
  | zero => rfl
  | succ f => rw [fullPages, if_neg (by omega)]

theorem fullPages_spec :
    ∀ fuel ps, ps.pending.length ≤ fuel → ps.ring.inited = true → wf ps.ring →
      ps.ring.size % PAGE_SIZE = 0 → 0 < ps.ring.size →
      ps.ring.meta.head % PAGE_SIZE = 0 →
      ∃ extra,
        (fullPages fuel ps).writesLog = ps.writesLog ++ extra ∧
        (∀ w ∈ extra, w.length = PAGE_SIZE) ∧
        (fullPages fuel ps).writesLog.flatten ++ (fullPages fuel ps).pending =
          ps.writesLog.flatten ++ ps.pending ∧
        (fullPages fuel ps).pending.length < PAGE_SIZE ∧
        (fullPages fuel ps).stream = ps.stream ∧
        (fullPages fuel ps).lastData = ps.lastData ∧
        (fullPages fuel ps).flushMetaCalls = ps.flushMetaCalls ∧
        (fullPages fuel ps).ring.inited = true ∧
        wf (fullPages fuel ps).ring ∧
        (fullPages fuel ps).ring.size = ps.ring.size ∧
        (fullPages fuel ps).ring.meta.head % PAGE_SIZE = 0 := by
  intro fuel
  induction fuel with
  | zero =>
    intro ps hlen hI hw hm h0 ha
    have hp : PAGE_SIZE = 4096 := rfl
    have h00 : fullPages 0 ps = ps := rfl
    rw [h00]
    exact ⟨[], by simp, by simp, rfl, by omega, rfl, rfl, rfl, hI, hw, rfl, ha⟩
  | succ f ih =>
    intro ps hlen hI hw hm h0 ha
    by_cases hbig : PAGE_SIZE ≤ ps.pending.length
    · rw [fullPages, if_pos hbig]
      have hbuflen : (ps.pending.take PAGE_SIZE).length = PAGE_SIZE := by
        rw [List.length_take]
        exact Nat.min_eq_left hbig
      have hppos : 0 < PAGE_SIZE := by
        show 0 < 4096
        omega
      have hwpos : 0 < (ps.pending.take PAGE_SIZE).length := by omega
      have hwle : (ps.pending.take PAGE_SIZE).length ≤ ps.ring.size := by
        rw [hbuflen]
        exact page_le_size _ hm h0
      set Q : PipeState :=
        { issueWrite ps (ps.pending.take PAGE_SIZE) with
          pending := ps.pending.drop PAGE_SIZE } with hQ
      have hQpend : Q.pending = ps.pending.drop PAGE_SIZE := rfl
      have hQlog : Q.writesLog = ps.writesLog ++ [ps.pending.take PAGE_SIZE] :=
        issueWrite_writesLog ps _
      have hQstream : Q.stream = ps.stream := issueWrite_stream ps _
      have hQlast : Q.lastData = ps.lastData := issueWrite_lastData ps _
      have hQfmc : Q.flushMetaCalls = ps.flushMetaCalls := issueWrite_flushMetaCalls ps _
      have hQring : Q.ring = (FlashRing.write ps.ring (ps.pending.take PAGE_SIZE).length).2 :=
        issueWrite_ring ps _
      have hQI : Q.ring.inited = true := by rw [hQring, write_inited]; exact hI
      have hQwf : wf Q.ring := by rw [hQring]; exact write_wf _ _ hw
      have hQsize : Q.ring.size = ps.ring.size := by rw [hQring, write_size]
      have hQalign : Q.ring.meta.head % PAGE_SIZE = 0 := by
        rw [hQring, write_preserves_align ps.ring _ hI hw hm hwpos hwle, hbuflen,
          Nat.add_mod_right, ha]
      have hQlen : Q.pending.length ≤ f := by
        rw [hQpend, List.length_drop]
        omega
      rcases ih Q hQlen hQI hQwf (by rw [hQsize]; exact hm) (by rw [hQsize]; exact h0) hQalign
        with ⟨extra, e1, e2, e3, e4, e5, e6, e7, e8, e9, e10, e11⟩
      refine ⟨ps.pending.take PAGE_SIZE :: extra, ?_, ?_, ?_, e4, ?_, ?_, ?_, e8, e9, ?_, e11⟩
      · rw [e1, hQlog]
        simp
      · intro w hw'
        rcases List.mem_cons.mp hw' with h | h
        · rw [h]; exact hbuflen
        · exact e2 w h
      · rw [e3, hQlog, hQpend]
        simp [List.take_append_drop]
      · rw [e5, hQstream]
      · rw [e6, hQlast]
      · rw [e7, hQfmc]
      · rw [e10, hQsize]
    · rw [fullPages, if_neg hbig]
      push_neg at hbig
      exact ⟨[], by simp, by simp, rfl, hbig, rfl, rfl, rfl, hI, hw, rfl, ha⟩

end DataPipeline

namespace DataPipeline

open FlashRing

theorem recvCount_zero_req (cfg : Config) (ps : PipeState) : recvCount cfg ps 0 = 0 := by
  unfold recvCount; simp

theorem flushStep_noop_empty (cfg : Config) (ps : PipeState) (now : Nat) (sig : Bool)
    (h : ps.pending = []) : flushStep cfg ps now sig = ps := by
  unfold flushStep
  apply if_neg
  intro hcond
  rw [h] at hcond
  simp at hcond

theorem flushStep_noop_fresh (cfg : Config) (ps : PipeState) (now : Nat)
    (h : now - ps.lastData ≤ cfg.flushTimeoutMs) : flushStep cfg ps now false = ps := by
  unfold flushStep
  apply if_neg
  intro hcond
  rcases hcond with ⟨hb, _⟩
  simp only [Bool.false_or, Bool.and_eq_true, decide_eq_true_eq] at hb
  omega

theorem flushStep_flush (cfg : Config) (ps : PipeState) (now : Nat) (flushSig : Bool)
    (hpend : 0 < ps.pending.length)
    (hcond : flushSig = true ∨ cfg.flushTimeoutMs < now - ps.lastData) :
    flushStep cfg ps now flushSig =
      { issueWrite ps ps.pending with
        pending := [],
        ring := (flushMetadata (issueWrite ps ps.pending).ring).2,
        flushMetaCalls := (issueWrite ps ps.pending).flushMetaCalls + 1 } := by
  have hC : (flushSig || (decide (0 < ps.pending.length) &&
      decide (cfg.flushTimeoutMs < now - ps.lastData))) = true ∧ 0 < ps.pending.length := by
    refine ⟨?_, hpend⟩
    rcases hcond with h | h
    · rw [h]; simp
    · simp [hpend, h]
  unfold flushStep
  rw [if_pos hC]

theorem writerStep_idle (cfg : Config) (ps : PipeState) (now : Nat)
    (hcond : now - ps.lastData ≤ cfg.flushTimeoutMs ∨ ps.pending = []) :
    writerStep cfg ps now 0 false = ps := by
  unfold writerStep
  have h0 := recvCount_zero_req cfg ps
  rw [if_neg (by omega)]
  rcases hcond with h | h
  · exact flushStep_noop_fresh cfg ps now h
  · exact flushStep_noop_empty cfg ps now false h

theorem runPipe_idle (cfg : Config) (ts : List Nat) (ps : PipeState)
    (h : ps.pending = [] ∨ ∀ t ∈ ts, t - ps.lastData ≤ cfg.flushTimeoutMs) :
    runPipe cfg ps (ts.map fun t => (t, 0, false)) = ps := by
  induction ts with
  | nil => rfl
  | cons t rest ih =>
    show runPipe cfg (writerStep cfg ps t 0 false) (rest.map fun t => (t, 0, false)) = ps
    have hstep : writerStep cfg ps t 0 false = ps := by
      apply writerStep_idle
      rcases h with h | h
      · exact Or.inr h
      · exact Or.inl (h t (by simp))
    rw [hstep]
    apply ih
    rcases h with h | h
    · exact Or.inl h
    · exact Or.inr (fun u hu => h u (by simp [hu]))

theorem writerStep_timeout_flush (cfg : Config) (ps : PipeState) (t2 : Nat)
    (hpend : 0 < ps.pending.length)
    (helapsed : cfg.flushTimeoutMs < t2 - ps.lastData) :
    (writerStep cfg ps t2 0 false).writesLog = ps.writesLog ++ [ps.pending] ∧
    (writerStep cfg ps t2 0 false).pending = [] ∧
    (writerStep cfg ps t2 0 false).flushMetaCalls = ps.flushMetaCalls + 1 ∧
    (writerStep cfg ps t2 0 false).stream = ps.stream := by
  unfold writerStep
  have h0 := recvCount_zero_req cfg ps
  rw [if_neg (by omega)]
  rw [flushStep_flush cfg ps t2 false hpend (Or.inr helapsed)]
  refine ⟨issueWrite_writesLog ps _, rfl, ?_, issueWrite_stream ps _⟩
  show (issueWrite ps ps.pending).flushMetaCalls + 1 = ps.flushMetaCalls + 1
  rw [issueWrite_flushMetaCalls]

theorem writerStep_finalFlush (cfg : Config) (ps : PipeState) :
    (writerStep cfg ps 0 0 true).pending = [] ∧
    (writerStep cfg ps 0 0 true).stream = ps.stream ∧
    ((writerStep cfg ps 0 0 true).writesLog = ps.writesLog ++ [ps.pending] ∧
        0 < ps.pending.length ∨
      (writerStep cfg ps 0 0 true).writesLog = ps.writesLog ∧ ps.pending = []) := by
  unfold writerStep
  have h0 := recvCount_zero_req cfg ps
  rw [if_neg (by omega)]
  by_cases hp : 0 < ps.pending.length
  · rw [flushStep_flush cfg ps 0 true hp (Or.inl rfl)]
    exact ⟨rfl, issueWrite_stream ps _, Or.inl ⟨issueWrite_writesLog ps _, hp⟩⟩
  · have hpe : ps.pending = [] := List.eq_nil_of_length_eq_zero (by omega)
    rw [flushStep_noop_empty cfg ps 0 true hpe]
    exact ⟨hpe, rfl, Or.inr ⟨rfl, hpe⟩⟩

end DataPipeline

namespace DataPipeline

open FlashRing

theorem pageCompleteStep_noop (ps : PipeState)
    (h : ps.pending.length < getBytesToPageEnd ps.ring) :
    pageCompleteStep ps = ps := by
  unfold pageCompleteStep
  apply if_neg
  intro hcond
  rcases hcond with ⟨hc1, _⟩
  omega

theorem writerStep_first (cfg : Config) (ps : PipeState) (t1 : Nat)
    (hpend : ps.pending = []) (hlen : 0 < ps.stream.length)
    (hcap : ps.stream.length ≤ cfg.writeChunkSize)
    (hsmall : ps.stream.length < PAGE_SIZE)
    (halign : ps.ring.meta.head % PAGE_SIZE = 0) :
    writerStep cfg ps t1 ps.stream.length false =
      { ps with stream := [], pending := ps.stream, lastData := t1 } := by
  have hn : recvCount cfg ps ps.stream.length = ps.stream.length := by
    unfold recvCount
    rw [hpend]
    simp only [List.length_nil, Nat.sub_zero]
    omega
  unfold writerStep
  rw [if_pos (by rw [hn]; exact hlen)]
  have hD : drainStep cfg ps t1 ps.stream.length =
      { ps with stream := [], pending := ps.stream, lastData := t1 } := by
    unfold drainStep
    rw [if_pos (by rw [hn]; exact hlen), hn, hpend]
    simp [List.drop_length, List.take_length]
  rw [hD]
  have hbpe : getBytesToPageEnd ps.ring = PAGE_SIZE := by
    unfold getBytesToPageEnd
    rw [halign]
    exact Nat.sub_zero _
  rw [pageCompleteStep_noop _ (by
    show ps.stream.length < getBytesToPageEnd ps.ring
    rw [hbpe]
    exact hsmall)]
  rw [fullPages_small _ _ (by show ps.stream.length < PAGE_SIZE; exact hsmall)]
  exact flushStep_noop_fresh cfg _ t1 (by show t1 - t1 ≤ _; omega)

/-- C6: with flush timeout T, feeding n bytes (0 < n < pageSize, n within the
staging capacity) into the pipeline on a fresh page-aligned store and then no
further data results in no write while at most T has elapsed since the data
arrived, and exactly one FlashRing write of exactly those n bytes plus exactly one
flushMetadata call once more than T has elapsed; later idle iterations issue
nothing further. -/
theorem c6_idle_flush (size cap T t1 t2 : Nat) (stream : List Nat) (ts1 ts2 : List Nat)
    (_hmod : size % PAGE_SIZE = 0) (_h0 : 0 < size)
    (hn : 0 < stream.length) (hsmall : stream.length < PAGE_SIZE)
    (hcap : stream.length ≤ cap)
    (hts1 : ∀ t ∈ ts1, t - t1 ≤ T) (ht2 : T < t2 - t1) :
    (runPipe (Config.mk cap T)
        (writerStep (Config.mk cap T) (pipeInit (initFresh size) stream) t1
          stream.length false)
        (ts1.map fun t => (t, 0, false))).writesLog = [] ∧
    (runPipe (Config.mk cap T)
        (writerStep (Config.mk cap T) (pipeInit (initFresh size) stream) t1
          stream.length false)
        (ts1.map fun t => (t, 0, false))).flushMetaCalls = 0 ∧
    (runPipe (Config.mk cap T)
        (writerStep (Config.mk cap T)
          (runPipe (Config.mk cap T)
            (writerStep (Config.mk cap T) (pipeInit (initFresh size) stream) t1
              stream.length false)
            (ts1.map fun t => (t, 0, false)))
          t2 0 false)
        (ts2.map fun t => (t, 0, false))).writesLog = [stream] ∧
    (runPipe (Config.mk cap T)
        (writerStep (Config.mk cap T)
          (runPipe (Config.mk cap T)
            (writerStep (Config.mk cap T) (pipeInit (initFresh size) stream) t1
              stream.length false)
            (ts1.map fun t => (t, 0, false)))
          t2 0 false)
        (ts2.map fun t => (t, 0, false))).flushMetaCalls = 1 := by
  have hA : writerStep (Config.mk cap T) (pipeInit (initFresh size) stream) t1
      stream.length false =
      { pipeInit (initFresh size) stream with
        stream := [], pending := stream, lastData := t1 } := by
    exact writerStep_first _ _ t1 rfl hn hcap hsmall rfl
  rw [hA]
  have hB : runPipe (Config.mk cap T)
      { pipeInit (initFresh size) stream with
        stream := [], pending := stream, lastData := t1 }
      (ts1.map fun t => (t, 0, false)) =
      { pipeInit (initFresh size) stream with
        stream := [], pending := stream, lastData := t1 } := by
    apply runPipe_idle
    exact Or.inr hts1
  rw [hB]
  refine ⟨rfl, rfl, ?_⟩
  have hC := writerStep_timeout_flush (Config.mk cap T)
    { pipeInit (initFresh size) stream with
      stream := [], pending := stream, lastData := t1 } t2 hn ht2
  have hD : runPipe (Config.mk cap T)
      (writerStep (Config.mk cap T)
        { pipeInit (initFresh size) stream with
          stream := [], pending := stream, lastData := t1 } t2 0 false)
      (ts2.map fun t => (t, 0, false)) =
      writerStep (Config.mk cap T)
        { pipeInit (initFresh size) stream with
          stream := [], pending := stream, lastData := t1 } t2 0 false := by
    apply runPipe_idle
    exact Or.inl hC.2.1
  rw [hD]
  rw [hC.1, hC.2.2.1]
  exact ⟨rfl, rfl⟩

/-- C6 witness: three bytes fed at tick 5 with timeout 100, idle polls at 50 and
105, flush observed at tick 200, and one more idle poll afterwards. -/
theorem c6_witness :
    (runPipe (Config.mk 8192 100)
        (writerStep (Config.mk 8192 100) (pipeInit (initFresh 12288) [1, 2, 3]) 5
          [1, 2, 3].length false)
        ([50, 105].map fun t => (t, 0, false))).writesLog = [] ∧
    (runPipe (Config.mk 8192 100)
        (writerStep (Config.mk 8192 100) (pipeInit (initFresh 12288) [1, 2, 3]) 5
          [1, 2, 3].length false)
        ([50, 105].map fun t => (t, 0, false))).flushMetaCalls = 0 ∧
    (runPipe (Config.mk 8192 100)
        (writerStep (Config.mk 8192 100)
          (runPipe (Config.mk 8192 100)
            (writerStep (Config.mk 8192 100) (pipeInit (initFresh 12288) [1, 2, 3]) 5
              [1, 2, 3].length false)
            ([50, 105].map fun t => (t, 0, false)))
          200 0 false)
        ([300].map fun t => (t, 0, false))).writesLog = [[1, 2, 3]] ∧
    (runPipe (Config.mk 8192 100)
        (writerStep (Config.mk 8192 100)
          (runPipe (Config.mk 8192 100)
            (writerStep (Config.mk 8192 100) (pipeInit (initFresh 12288) [1, 2, 3]) 5
              [1, 2, 3].length false)
            ([50, 105].map fun t => (t, 0, false)))
          200 0 false)
        ([300].map fun t => (t, 0, false))).flushMetaCalls = 1 :=
  c6_idle_flush 12288 8192 100 5 200 [1, 2, 3] [50, 105] [300] (by decide) (by decide)
    (by decide) (by decide) (by decide)
    (by decide) (by decide)

end DataPipeline

namespace DataPipeline

open FlashRing

theorem bpe_pos (r : RingState) : 0 < getBytesToPageEnd r := by
  unfold getBytesToPageEnd PAGE_SIZE
  have := Nat.mod_lt r.meta.head (show 0 < 4096 by omega)
  omega

theorem bpe_le_page (r : RingState) : getBytesToPageEnd r ≤ PAGE_SIZE := by
  unfold getBytesToPageEnd
  omega

theorem pageCompleteStep_spec (ps : PipeState) (hI : ps.ring.inited = true) (hw : wf ps.ring)
    (hm : ps.ring.size % PAGE_SIZE = 0) (h0 : 0 < ps.ring.size) :
    (pageCompleteStep ps = ps ∧ ps.pending.length < getBytesToPageEnd ps.ring) ∨
    ((pageCompleteStep ps).writesLog =
        ps.writesLog ++ [ps.pending.take (getBytesToPageEnd ps.ring)] ∧
      (ps.pending.take (getBytesToPageEnd ps.ring)).length = getBytesToPageEnd ps.ring ∧
      (pageCompleteStep ps).pending = ps.pending.drop (getBytesToPageEnd ps.ring) ∧
      (pageCompleteStep ps).stream = ps.stream ∧
      (pageCompleteStep ps).lastData = ps.lastData ∧
      (pageCompleteStep ps).flushMetaCalls = ps.flushMetaCalls ∧
      (pageCompleteStep ps).ring.inited = true ∧
      wf (pageCompleteStep ps).ring ∧
      (pageCompleteStep ps).ring.size = ps.ring.size ∧
      (pageCompleteStep ps).ring.meta.head % PAGE_SIZE = 0) := by
  by_cases hc : getBytesToPageEnd ps.ring ≤ ps.pending.length ∧ 0 < getBytesToPageEnd ps.ring
  · right
    have hbuflen : (ps.pending.take (getBytesToPageEnd ps.ring)).length =
        getBytesToPageEnd ps.ring := by
      rw [List.length_take]
      exact Nat.min_eq_left hc.1
    have hble : (ps.pending.take (getBytesToPageEnd ps.ring)).length ≤ ps.ring.size := by
      rw [hbuflen]
      exact Nat.le_trans (bpe_le_page ps.ring) (page_le_size _ hm h0)
    have hbpos : 0 < (ps.pending.take (getBytesToPageEnd ps.ring)).length := by
      rw [hbuflen]; exact hc.2
    have hUn : pageCompleteStep ps =
        { issueWrite ps (ps.pending.take (getBytesToPageEnd ps.ring)) with
          pending := ps.pending.drop (getBytesToPageEnd ps.ring) } := by
      unfold pageCompleteStep
      rw [if_pos hc]
    rw [hUn]
    refine ⟨issueWrite_writesLog ps _, hbuflen, rfl, issueWrite_stream ps _,
      issueWrite_lastData ps _, issueWrite_flushMetaCalls ps _, ?_, ?_, ?_, ?_⟩
    · show (issueWrite ps _).ring.inited = true
      rw [issueWrite_ring, write_inited]
      exact hI
    · show wf (issueWrite ps _).ring
      rw [issueWrite_ring]
      exact write_wf _ _ hw
    · show (issueWrite ps _).ring.size = ps.ring.size
      rw [issueWrite_ring, write_size]
    · show (issueWrite ps _).ring.meta.head % PAGE_SIZE = 0
      rw [issueWrite_ring, write_preserves_align ps.ring _ hI hw hm hbpos hble, hbuflen]
      have hp : PAGE_SIZE = 4096 := rfl
      unfold getBytesToPageEnd
      rw [hp]
      omega
  · left
    have hlt : ps.pending.length < getBytesToPageEnd ps.ring := by
      by_contra h'
      push_neg at h'
      exact hc ⟨h', bpe_pos ps.ring⟩
    exact ⟨pageCompleteStep_noop ps hlt, hlt⟩

theorem shape_append (log : List (List Nat)) (b : List Nat) (ex : List (List Nat))
    (hlog : ∀ w ∈ log.drop 1, w.length = PAGE_SIZE)
    (hb : log = [] ∨ b.length = PAGE_SIZE)
    (hex : ∀ w ∈ ex, w.length = PAGE_SIZE) :
    ∀ w ∈ ((log ++ [b]) ++ ex).drop 1, w.length = PAGE_SIZE := by
  intro w hw
  cases log with
  | nil =>
    simp only [List.nil_append, List.cons_append, List.drop_succ_cons, List.drop_zero] at hw
    exact hex w hw
  | cons a t =>
    simp only [List.cons_append, List.drop_succ_cons, List.drop_zero, List.mem_append,
      List.mem_singleton] at hw
    rcases hw with (hw | hw) | hw
    · exact hlog w (by simpa using hw)
    · rcases hb with hb | hb
      · exact absurd hb (by simp)
      · rw [hw]; exact hb
    · exact hex w hw

theorem drainStep_ring (cfg : Config) (ps : PipeState) (now r : Nat) :
    (drainStep cfg ps now r).ring = ps.ring := by
  unfold drainStep; split <;> rfl

theorem drainStep_writesLog (cfg : Config) (ps : PipeState) (now r : Nat) :
    (drainStep cfg ps now r).writesLog = ps.writesLog := by
  unfold drainStep; split <;> rfl

theorem drainStep_flushMetaCalls (cfg : Config) (ps : PipeState) (now r : Nat) :
    (drainStep cfg ps now r).flushMetaCalls = ps.flushMetaCalls := by
  unfold drainStep; split <;> rfl

theorem drainStep_stream (cfg : Config) (ps : PipeState) (now r : Nat)
    (h : 0 < recvCount cfg ps r) :
    (drainStep cfg ps now r).stream = ps.stream.drop (recvCount cfg ps r) := by
  unfold drainStep; rw [if_pos h]

theorem drainStep_pending (cfg : Config) (ps : PipeState) (now r : Nat)
    (h : 0 < recvCount cfg ps r) :
    (drainStep cfg ps now r).pending = ps.pending ++ ps.stream.take (recvCount cfg ps r) := by
  unfold drainStep; rw [if_pos h]

theorem drainStep_lastData (cfg : Config) (ps : PipeState) (now r : Nat)
    (h : 0 < recvCount cfg ps r) :
    (drainStep cfg ps now r).lastData = now := by
  unfold drainStep; rw [if_pos h]

theorem writerStep_data_inv (cfg : Config) (stream0 : List Nat) (sz : Nat)
    (hm : sz % PAGE_SIZE = 0) (h0 : 0 < sz) (ps : PipeState) (r : Nat)
    (hinv : pipeInv stream0 sz ps) :
    pipeInv stream0 sz (writerStep cfg ps 0 r false) := by
  obtain ⟨hsz, hw, hI, ⟨k, hk1, hk2⟩, hshape, halign⟩ := hinv
  unfold writerStep
  by_cases hn : 0 < recvCount cfg ps r
  · rw [if_pos hn]
    have hDring := drainStep_ring cfg ps 0 r
    have hDlog := drainStep_writesLog cfg ps 0 r
    have hDstream : (drainStep cfg ps 0 r).stream = stream0.drop (k + recvCount cfg ps r) := by
      rw [drainStep_stream cfg ps 0 r hn, hk1, List.drop_drop]
    have hDflat : (drainStep cfg ps 0 r).writesLog.flatten ++ (drainStep cfg ps 0 r).pending =
        stream0.take (k + recvCount cfg ps r) := by
      rw [hDlog, drainStep_pending cfg ps 0 r hn, ← List.append_assoc, hk2, hk1,
        List.take_add]
    rcases pageCompleteStep_spec (drainStep cfg ps 0 r)
        (by rw [hDring]; exact hI) (by rw [hDring]; exact hw)
        (by rw [hDring, hsz]; exact hm) (by rw [hDring, hsz]; exact h0) with
      hA | ⟨e1, e2, e3, e4, e5, e6, e7, e8, e9, e10⟩
    · have hsmall : (drainStep cfg ps 0 r).pending.length < PAGE_SIZE := by
        have h1 := hA.2
        have h2 := bpe_le_page (drainStep cfg ps 0 r).ring
        omega
      rw [hA.1, fullPages_small _ _ hsmall]
      rw [flushStep_noop_fresh cfg _ 0 (by omega)]
      refine ⟨by rw [hDring]; exact hsz, by rw [hDring]; exact hw, by rw [hDring]; exact hI,
        ⟨k + recvCount cfg ps r, by rw [hDstream], hDflat⟩,
        by rw [hDlog]; exact hshape, ?_⟩
      rcases halign with hnil | hal
      · exact Or.inl (by rw [hDlog]; exact hnil)
      · exact Or.inr (by rw [hDring]; exact hal)
    · have hfp := fullPages_spec (pageCompleteStep (drainStep cfg ps 0 r)).pending.length
        (pageCompleteStep (drainStep cfg ps 0 r))
        (Nat.le_refl _) e7 e8 (by rw [e9, hDring, hsz]; exact hm)
        (by rw [e9, hDring, hsz]; exact h0) e10
      rcases hfp with ⟨extra, f1, f2, f3, f4, f5, f6, f7, f8, f9, f10, f11⟩
      rw [flushStep_noop_fresh cfg _ 0
        (by rw [f6, e5, drainStep_lastData cfg ps 0 r hn]; omega)]
      refine ⟨by rw [f10, e9, hDring]; exact hsz, f9, f8,
        ⟨k + recvCount cfg ps r, ?_, ?_⟩, ?_, Or.inr f11⟩
      · rw [f5, e4, hDstream]
      · rw [f3, e1, e3, List.flatten_append]
        simp only [List.flatten_cons, List.flatten_nil, List.append_nil]
        rw [List.append_assoc, List.take_append_drop]
        exact hDflat
      · rw [f1, e1, hDlog]
        apply shape_append
        · exact hshape
        · rcases halign with hnil | hal
          · exact Or.inl hnil
          · right
            rw [e2, hDring]
            unfold getBytesToPageEnd
            rw [hal]
            exact Nat.sub_zero _
        · exact f2
  · rw [if_neg hn]
    rw [flushStep_noop_fresh cfg ps 0 (by omega)]
    exact ⟨hsz, hw, hI, ⟨k, hk1, hk2⟩, hshape, halign⟩

end DataPipeline

namespace DataPipeline

open FlashRing

theorem runPipe_data_inv (cfg : Config) (stream0 : List Nat) (sz : Nat)
    (hm : sz % PAGE_SIZE = 0) (h0 : 0 < sz) :
    ∀ (recvs : List Nat) (ps : PipeState), pipeInv stream0 sz ps →
      pipeInv stream0 sz (runPipe cfg ps (recvs.map fun r => (0, r, false))) := by
  intro recvs
  induction recvs with
  | nil => intro ps h; exact h
  | cons a rest ih =>
    intro ps h
    show pipeInv stream0 sz
      (runPipe cfg (writerStep cfg ps 0 a false) (rest.map fun r => (0, r, false)))
    exact ih _ (writerStep_data_inv cfg stream0 sz hm h0 ps a h)

theorem shape_final (log : List (List Nat)) (p : List Nat)
    (hlog : ∀ w ∈ log.drop 1, w.length = PAGE_SIZE) :
    ∀ w ∈ ((log ++ [p]).drop 1).dropLast, w.length = PAGE_SIZE := by
  intro w hw
  cases log with
  | nil => simp at hw
  | cons a t =>
    rw [List.cons_append, List.drop_succ_cons, List.drop_zero, List.dropLast_concat] at hw
    exact hlog w (by simpa using hw)

/-- C5: for any stream of byte bursts fed to the writer task in any receive
pattern, followed by one explicit flush, the writes issued to FlashRing, when
concatenated, reconstruct exactly the prefix of, and in particular (once the
source is fully drained) all of, the original byte stream, the staging buffer
ends empty, and every issued write except possibly the very first and the final
flush is exactly PAGE_SIZE bytes. -/
theorem c5_page_aligned_chunking (cfg : Config) (sz : Nat) (ring0 : RingState)
    (stream : List Nat) (recvs : List Nat)
    (hsz : ring0.size = sz) (hm : sz % PAGE_SIZE = 0) (h0 : 0 < sz)
    (hw : wf ring0) (hI : ring0.inited = true) :
    (writerStep cfg (runPipe cfg (pipeInit ring0 stream) (recvs.map fun r => (0, r, false)))
        0 0 true).pending = [] ∧
    (∃ k,
      (writerStep cfg (runPipe cfg (pipeInit ring0 stream) (recvs.map fun r => (0, r, false)))
          0 0 true).writesLog.flatten = stream.take k ∧
      (writerStep cfg (runPipe cfg (pipeInit ring0 stream) (recvs.map fun r => (0, r, false)))
          0 0 true).stream = stream.drop k) ∧
    (∀ w ∈ ((writerStep cfg (runPipe cfg (pipeInit ring0 stream)
        (recvs.map fun r => (0, r, false))) 0 0 true).writesLog.drop 1).dropLast,
      w.length = PAGE_SIZE) := by
  have hinv0 : pipeInv stream sz (pipeInit ring0 stream) := by
    refine ⟨hsz, hw, hI, ⟨0, ?_, ?_⟩, ?_, Or.inl rfl⟩
    · show stream = stream.drop 0
      rw [List.drop_zero]
    · show List.flatten [] ++ [] = stream.take 0
      simp
    · show ∀ w ∈ ([] : List (List Nat)).drop 1, w.length = PAGE_SIZE
      simp
  have hinvB := runPipe_data_inv cfg stream sz hm h0 recvs _ hinv0
  obtain ⟨hszB, hwB, hIB, ⟨k, hk1, hk2⟩, hshapeB, _⟩ := hinvB
  obtain ⟨hp, hs, hcase⟩ := writerStep_finalFlush cfg
    (runPipe cfg (pipeInit ring0 stream) (recvs.map fun r => (0, r, false)))
  refine ⟨hp, ⟨k, ?_, ?_⟩, ?_⟩
  · rcases hcase with ⟨hlog, _⟩ | ⟨hlog, hpend⟩
    · rw [hlog, List.flatten_append]
      simp only [List.flatten_cons, List.flatten_nil, List.append_nil]
      exact hk2
    · rw [hlog]
      rw [hpend, List.append_nil] at hk2
      exact hk2
  · rw [hs, hk1]
  · rcases hcase with ⟨hlog, _⟩ | ⟨hlog, _⟩
    · rw [hlog]
      exact shape_final _ _ hshapeB
    · rw [hlog]
      intro w hwm
      exact hshapeB w (List.mem_of_mem_dropLast hwm)

/-- C5 witness: a four-byte stream received in one gulp on a fresh 12288-byte
store, then flushed. -/
theorem c5_witness :
    (writerStep (Config.mk 8192 50)
        (runPipe (Config.mk 8192 50) (pipeInit (initFresh 12288) [1, 2, 3, 4])
          ([4].map fun r => (0, r, false))) 0 0 true).pending = [] ∧
    (∃ k,
      (writerStep (Config.mk 8192 50)
          (runPipe (Config.mk 8192 50) (pipeInit (initFresh 12288) [1, 2, 3, 4])
            ([4].map fun r => (0, r, false))) 0 0 true).writesLog.flatten =
        [1, 2, 3, 4].take k ∧
      (writerStep (Config.mk 8192 50)
          (runPipe (Config.mk 8192 50) (pipeInit (initFresh 12288) [1, 2, 3, 4])
            ([4].map fun r => (0, r, false))) 0 0 true).stream = [1, 2, 3, 4].drop k) ∧
    (∀ w ∈ ((writerStep (Config.mk 8192 50)
        (runPipe (Config.mk 8192 50) (pipeInit (initFresh 12288) [1, 2, 3, 4])
          ([4].map fun r => (0, r, false))) 0 0 true).writesLog.drop 1).dropLast,
      w.length = PAGE_SIZE) :=
  c5_page_aligned_chunking (Config.mk 8192 50) 12288 (initFresh 12288) [1, 2, 3, 4] [4]
    rfl (by decide) (by decide) (by decide) rfl

end DataPipeline
